import Mathlib

/-!
Verification development for the sh-support deductive-reasoning engine.

This file shallowly embeds the combinatorial deck/role enumeration and
constraint-filtering core of the repository (src/deck.rs, src/policy.rs,
src/secret_role.rs, src/information.rs, src/error.rs and the
src/players/ modules) into Lean and proves properties of the embedding.

Modelling conventions:
* `usize` is modelled as `Nat`; subtraction (`-` on `usize`, which panics on
  underflow in the source) is modelled with truncating `Nat` subtraction;
  every claim-relevant subtraction site is guarded in the source so that the
  two semantics agree on reachable inputs.
* `BTreeMap<K, V>` values are modelled as association lists in key-sorted
  iteration order; `BTreeSet<usize>` values are modelled as `List Nat` used
  only through membership tests and unions.
* `HashMap` values whose iteration order is irrelevant (they are only used
  through lookups) are modelled as association lists as well.
* fallible code (`Result` in the source) is modelled with `Except`;
  a reachable `unwrap`/panic site is modelled by propagating a distinguished
  failure outcome rather than by a default value.
* The memoization attributes (`#[cached]`) are performance-only and are not
  modelled; the cached functions are pure.
* `f64` fields (`absolute_probability`, set by `annotate_trees_absolute`
  only) are floating point and outside every claim considered here; the
  field is omitted from the `TreeNode` model.
-/

namespace ShSupport

/-- PlayerID is a plain `usize` seat number (src/main.rs). -/
abbrev PlayerID := Nat

/-- Decidable equality of `Except` results, used to state concrete
evaluations of the fallible operations. -/
instance exceptDecEq {ε α : Type} [DecidableEq ε] [DecidableEq α] :
    DecidableEq (Except ε α) := fun x y =>
  match x, y with
  | Except.ok a, Except.ok b =>
    if h : a = b then Decidable.isTrue (by rw [h])
    else Decidable.isFalse (fun hh => h (by cases hh; rfl))
  | Except.error e, Except.error f =>
    if h : e = f then Decidable.isTrue (by rw [h])
    else Decidable.isFalse (fun hh => h (by cases hh; rfl))
  | Except.ok _, Except.error _ =>
    Decidable.isFalse (fun hh => Except.noConfusion hh)
  | Except.error _, Except.ok _ =>
    Decidable.isFalse (fun hh => Except.noConfusion hh)

/-- Policy — binary policy card enum (src/policy.rs). -/
inductive Policy where
  | Liberal : Policy
  | Fascist : Policy
deriving DecidableEq, Repr

/-- SecretRole — hidden role enum (src/secret_role.rs). -/
inductive SecretRole where
  | Liberal : SecretRole
  | RegularFascist : SecretRole
  | Hitler : SecretRole
deriving DecidableEq, Repr

/-- SecretRole::is_fascist (src/secret_role.rs). -/
def SecretRole.is_fascist (r : SecretRole) : Bool :=
  !(r = SecretRole.Liberal)

/-- CardContext — deck-position tracking (src/players/mod.rs lines 37-42). -/
structure CardContext where
  cards_left : Nat
  cards_discarded : Nat
  shuffle_index : Nat
deriving DecidableEq, Repr

/-- CardContext::atomic_draw (src/players/mod.rs lines 45-57). -/
def CardContext.atomic_draw (c : CardContext) (draw_count discard_count : Nat) :
    CardContext :=
  if c.cards_left - draw_count < 3 then
    { cards_left := c.cards_left + c.cards_discarded,
      cards_discarded := 0,
      shuffle_index := c.shuffle_index + 1 }
  else
    { cards_left := c.cards_left - draw_count,
      cards_discarded := c.cards_discarded + discard_count,
      shuffle_index := c.shuffle_index }

/-- PresidentialAction (src/players/mod.rs lines 503-512).  The
`TopDeckPeek` payload `[Policy; 3]` is modelled as a list. -/
inductive PresidentialAction where
  | NoAction : PresidentialAction
  | Kill : PlayerID → PresidentialAction
  | Investigation : PlayerID → Policy → PresidentialAction
  | RevealParty : PlayerID → Policy → PresidentialAction
  | TopDeckPeek : List Policy → PresidentialAction
  | SpecialElection : PlayerID → PresidentialAction
  | PeekAndBurn : Policy → Bool → CardContext → PresidentialAction
deriving DecidableEq, Repr

/-- ElectedGovernment (src/players/mod.rs lines 584-596). -/
structure ElectedGovernment where
  president : PlayerID
  chancellor : PlayerID
  president_claimed_blues : Nat
  chancellor_claimed_blues : Nat
  conflict : Bool
  policy_passed : Policy
  presidential_action : PresidentialAction
  deck_context : CardContext
  chancellor_confirmed_not_hitler : Bool
deriving DecidableEq, Repr

/-- ElectionResult (src/players/mod.rs lines 517-520). -/
inductive ElectionResult where
  | TopDeck : Policy → CardContext → ElectionResult
  | Election : ElectedGovernment → ElectionResult
deriving DecidableEq, Repr

/-- ElectionResult::cards_total_drawn_discarded (src/players/mod.rs 523-531). -/
def ElectionResult.cards_total_drawn_discarded : ElectionResult → Nat × Nat
  | ElectionResult.TopDeck _ _ => (1, 0)
  | ElectionResult.Election gov =>
    match gov.presidential_action with
    | PresidentialAction.PeekAndBurn _ true _ => (4, 3)
    | _ => (3, 2)

/-- ElectionResult::passed_policy (src/players/mod.rs 533-538). -/
def ElectionResult.passed_policy : ElectionResult → Policy
  | ElectionResult.TopDeck p _ => p
  | ElectionResult.Election gov => gov.policy_passed

/-- ElectionResult::seen_blues (src/players/mod.rs 540-552). -/
def ElectionResult.seen_blues : ElectionResult → Nat
  | ElectionResult.TopDeck Policy.Liberal _ => 1
  | ElectionResult.Election gov =>
    gov.president_claimed_blues +
      match gov.presidential_action with
      | PresidentialAction.PeekAndBurn Policy.Liberal true _ => 1
      | _ => 0
  | ElectionResult.TopDeck Policy.Fascist _ => 0

/-- ElectionResult::passed_blues (src/players/mod.rs 554-561). -/
def ElectionResult.passed_blues (er : ElectionResult) : Nat :=
  if er.passed_policy = Policy.Liberal then 1 else 0

/-- Information — tagged-union fact type (src/information.rs). -/
inductive Information where
  | ConfirmedNotHitler : PlayerID → Information
  | PolicyConflict : PlayerID → PlayerID → Information
  | LiberalInvestigation : PlayerID → PlayerID → Information
  | FascistInvestigation : PlayerID → PlayerID → Information
  | HardFact : PlayerID → SecretRole → Information
  | AtLeastOneFascist : List PlayerID → Information
deriving DecidableEq, Repr

/-- Error — the variants of src/error.rs reachable from the embedded core
(the I/O, image and REPL variants belong to out-of-scope glue). -/
inductive Error where
  | BadPlayerID : PlayerID → Error
  | LogicalInconsistency : Error
  | BadFactIndex : Nat → Error
  | BadPlayerCount : Nat → Error
deriving DecidableEq, Repr

/-- FilterResult — exact (num_matching, num_checked) fraction
(src/deck.rs lines 163-167). -/
structure FilterResult where
  num_matching : Nat
  num_checked : Nat
deriving DecidableEq, Repr

/-- FilterResult::none (src/deck.rs lines 172-177). -/
def FilterResult.none (out_of : Nat) : FilterResult :=
  { num_matching := 0, num_checked := out_of }

/-- Itertools::combinations as used by generate_internal and
generate_assignments_cached: all length-k element selections of the input,
preserving input order inside every selection. -/
def combinations : List α → Nat → List (List α)
  | _, 0 => [[]]
  | [], _ + 1 => []
  | a :: rest, k + 1 =>
    ((combinations rest k).map (fun c => a :: c)) ++ combinations rest (k + 1)

/-- DeckState (src/deck.rs lines 17-21). -/
structure DeckState where
  num_cards : Nat
  actual_decks : List (List Policy)
deriving Repr

/-- generate_internal (src/deck.rs lines 37-54): every deck of length
num_lib + num_fasc with exactly num_lib Liberal positions. -/
def generate_internal (num_lib num_fasc : Nat) : DeckState :=
  let num_cards := num_lib + num_fasc
  { num_cards := num_cards,
    actual_decks :=
      (combinations (List.range num_cards) num_lib).map (fun vlib =>
        vlib.foldl (fun out i => out.set i Policy.Liberal)
          (List.replicate num_cards Policy.Fascist)) }

/-- count_policies (src/deck.rs lines 116-127). -/
def count_policies (deck : List Policy) (offset window_size : Nat)
    (policy : Policy) : Nat :=
  (((deck.drop offset).take window_size).filter (fun p => p = policy)).length

/-- The per-deck scan-and-check over hard facts inside
hard_facted_complex_card_counter (src/deck.rs lines 205-230); the running
`offset` is the scan state. -/
def hard_facts_scan (hard_confirmed_libs : List PlayerID) (d : List Policy) :
    Nat → List ElectionResult → Bool
  | _, [] => true
  | offset, er :: rest =>
    let drawn := er.cards_total_drawn_discarded.1
    let blue_count := count_policies d offset drawn Policy.Liberal
    let red_count := count_policies d offset drawn Policy.Fascist
    let drawn_blue := decide (er.passed_blues ≤ blue_count)
    let drawn_red := decide (1 - er.passed_blues ≤ red_count)
    let good_liberals :=
      match er with
      | ElectionResult.Election eg =>
        let president := !hard_confirmed_libs.contains eg.president
          || decide (eg.president_claimed_blues = blue_count)
        let chancellor_blue := !hard_confirmed_libs.contains eg.chancellor
          || decide (eg.chancellor_claimed_blues ≤ blue_count)
        let chancellor_red := !hard_confirmed_libs.contains eg.chancellor
          || decide (2 - eg.chancellor_claimed_blues ≤ red_count)
        president && chancellor_blue && chancellor_red
      | ElectionResult.TopDeck _ _ => true
    (drawn_blue && drawn_red && good_liberals) &&
      hard_facts_scan hard_confirmed_libs d (offset + drawn) rest

/-- hard_facted_complex_card_counter (src/deck.rs lines 192-233). -/
def hard_facted_complex_card_counter (num_total_lib num_total_fasc : Nat)
    (hard_facts : List ElectionResult) (hard_confirmed_libs : List PlayerID) :
    DeckState :=
  let decks := generate_internal num_total_lib num_total_fasc
  { num_cards := decks.num_cards,
    actual_decks :=
      decks.actual_decks.filter (fun d =>
        hard_facts_scan hard_confirmed_libs d 0 hard_facts) }

/-- The per-deck enumerated scan over hard facts inside complex_card_counter
(src/deck.rs lines 256-290), carrying the running offset and the enumeration
index into legal_follow_on_sets. -/
def follow_on_scan (legal_follow_on_sets : List (Option (List Nat)))
    (path_assumed_liberals : List PlayerID) (d : List Policy) :
    Nat → Nat → List ElectionResult → Bool
  | _, _, [] => true
  | offset, idx, er :: rest =>
    let drawn := er.cards_total_drawn_discarded.1
    let blue_count := count_policies d offset drawn Policy.Liberal
    let red_count := count_policies d offset drawn Policy.Fascist
    let follow_on :=
      match legal_follow_on_sets[idx]? with
      | Option.none => true
      | Option.some Option.none => true
      | Option.some (Option.some set) => set.contains blue_count
    let good_liberals :=
      match er with
      | ElectionResult.Election eg =>
        let president := !path_assumed_liberals.contains eg.president
          || decide (er.seen_blues = blue_count)
        let chancellor_blue := !path_assumed_liberals.contains eg.chancellor
          || decide (eg.chancellor_claimed_blues ≤ blue_count)
        let chancellor_red := !path_assumed_liberals.contains eg.chancellor
          || decide (2 - eg.chancellor_claimed_blues ≤ red_count)
        president && chancellor_blue && chancellor_red
      | ElectionResult.TopDeck _ _ => true
    (good_liberals && follow_on) &&
      follow_on_scan legal_follow_on_sets path_assumed_liberals d
        (offset + drawn) (idx + 1) rest

/-- The per-deck scan over sequential hypotheses inside complex_card_counter
(src/deck.rs lines 291-302). -/
def hypotheses_scan (d : List Policy) : Nat → List ElectionResult → Bool
  | _, [] => true
  | offset, er :: rest =>
    let drawn := er.cards_total_drawn_discarded.1
    decide (count_policies d offset drawn Policy.Liberal = er.seen_blues) &&
      hypotheses_scan d (offset + drawn) rest

/-- The surviving deck population built by complex_card_counter before the
new hypothesis is tested (src/deck.rs lines 245-304, the local `decks`). -/
def complex_card_counter_decks (num_total_lib num_total_fasc : Nat)
    (hard_facts : List ElectionResult) (hypotheses : List ElectionResult)
    (legal_follow_on_sets : List (Option (List Nat)))
    (hard_confirmed_liberals path_assumed_liberals : List PlayerID) :
    List (List Policy) :=
  (((hard_facted_complex_card_counter num_total_lib num_total_fasc hard_facts
      hard_confirmed_liberals).actual_decks.filter (fun d =>
        follow_on_scan legal_follow_on_sets path_assumed_liberals d 0 0
          hard_facts)).filter (fun d => hypotheses_scan d 0 hypotheses))

/-- complex_card_counter (src/deck.rs lines 235-326). -/
def complex_card_counter (num_total_lib num_total_fasc : Nat)
    (hard_facts : List ElectionResult) (hypotheses : List ElectionResult)
    (legal_follow_on_sets : List (Option (List Nat)))
    (hard_confirmed_liberals path_assumed_liberals : List PlayerID)
    (new_hypothesis : ElectionResult) : FilterResult :=
  let decks := complex_card_counter_decks num_total_lib num_total_fasc
    hard_facts hypotheses legal_follow_on_sets hard_confirmed_liberals
    path_assumed_liberals
  let target_offset :=
    (hypotheses.map (fun er => er.cards_total_drawn_discarded.1)).sum
  { num_matching :=
      decks.countP (fun d =>
        count_policies d target_offset
          new_hypothesis.cards_total_drawn_discarded.1 Policy.Liberal =
          new_hypothesis.seen_blues),
    num_checked := decks.length }

/-- next_blues_count (src/deck.rs lines 328-361). -/
def next_blues_count (num_total_lib num_total_fasc window_size
    desired_blues_in_window guaranteed_blues_in_window
    guaranteed_reds_in_window : Nat) : FilterResult :=
  let decks := generate_internal num_total_lib num_total_fasc
  let decks :=
    decks.actual_decks.filter (fun d =>
      decide (guaranteed_blues_in_window ≤
          count_policies d 0 window_size Policy.Liberal) &&
        decide (guaranteed_reds_in_window ≤
          count_policies d 0 window_size Policy.Fascist))
  { num_matching :=
      decks.countP (fun d =>
        count_policies d 0 window_size Policy.Liberal =
          desired_blues_in_window),
    num_checked := decks.length }

/-- GameConfiguration (src/players/game_configuration.rs lines 21-33);
the 5-slot fascist board is modelled as a list. -/
structure GameConfiguration where
  table_size : Nat
  num_regular_fascists : Nat
  initial_liberal_deck_policies : Nat
  initial_fascist_deck_policies : Nat
  initial_placed_liberal_policies : Nat
  initial_placed_fascist_policies : Nat
  fascist_board_configuration : List PresidentialAction
  hitler_zone_passed_fascist_policies : Nat
  veto_zone_passed_fascist_policies : Nat
deriving DecidableEq, Repr

/-- A role assignment: a BTreeMap from seat to role, modelled in key-sorted
iteration order as an association list. -/
abbrev RoleAssignment := List (PlayerID × SecretRole)

/-- generate_assignments_cached (src/players/game_configuration.rs lines
177-215). -/
def generate_assignments_cached (table_size num_regular_fascists : Nat) :
    List RoleAssignment :=
  (((combinations (List.range (table_size - 1)) num_regular_fascists).flatMap
      (fun fasc_pos =>
        (List.range table_size).map (fun hitler_pos =>
          (hitler_pos,
            fasc_pos.map (fun fp =>
              if hitler_pos ≤ fp then fp + 1 else fp))))).map
    (fun hf =>
      let out := (List.replicate table_size SecretRole.Liberal).set hf.1
        SecretRole.Hitler
      let out := hf.2.foldl (fun acc i => acc.set i SecretRole.RegularFascist)
        out
      out.enum.map (fun pr => (pr.1 + 1, pr.2))))

/-- GameConfiguration::generate_assignments
(src/players/game_configuration.rs lines 98-100). -/
def GameConfiguration.generate_assignments (cfg : GameConfiguration) :
    List RoleAssignment :=
  generate_assignments_cached cfg.table_size cfg.num_regular_fascists

/-- GameConfiguration::new_standard without the per-size board lookup detail
(src/players/game_configuration.rs lines 62-84); used to build concrete
states for witnesses.  SMALL_BOARD is the 5/6-player board. -/
def SMALL_BOARD : List PresidentialAction :=
  [PresidentialAction.NoAction, PresidentialAction.NoAction,
    PresidentialAction.TopDeckPeek
      [Policy.Liberal, Policy.Liberal, Policy.Liberal],
    PresidentialAction.Kill 0, PresidentialAction.Kill 0]

/-- PlayerState (src/players/mod.rs lines 69-74).  The CallBackVec wrappers
carry rendering callbacks (out-of-scope side effects) around plain vectors
and are modelled as the underlying lists; the `player_info` display-name map
is not consulted by any embedded operation and is omitted. -/
structure PlayerState where
  table_configuration : GameConfiguration
  available_information : List Information
  governments : List ElectionResult

/-- PlayerState::current_roles (src/players/mod.rs lines 77-79). -/
def PlayerState.current_roles (ps : PlayerState) : List RoleAssignment :=
  ps.table_configuration.generate_assignments

/-- Itertools::group_by over an already ordered iterator as used by
shuffle_election_results and filtered_histogramm: splits a list into maximal
runs of consecutive elements equated by `eqk`, returning each run as its
head paired with the remaining run elements. -/
def runs_by (eqk : α → α → Bool) : List α → List (α × List α)
  | [] => []
  | a :: rest =>
    match runs_by eqk rest with
    | [] => [(a, [])]
    | (b, g) :: gs =>
      if eqk a b then (a, b :: g) :: gs else (a, []) :: (b, g) :: gs

/-- Itertools::tuple_windows over pairs, as used by collect_information. -/
def tuple_windows : List α → List (α × α)
  | a :: b :: rest => (a, b) :: tuple_windows (b :: rest)
  | _ => []

/-- The shuffle-index key of an election result as grouped by
shuffle_election_results (src/players/mod.rs lines 332-335). -/
def ElectionResult.group_shuffle_index : ElectionResult → Nat
  | ElectionResult.TopDeck _ cc => cc.shuffle_index
  | ElectionResult.Election gov => gov.deck_context.shuffle_index

/-- ShuffleAnalysis (src/players/mod.rs lines 390-398), with the borrowed
election-result slice modelled as an owned list. -/
structure ShuffleAnalysis where
  shuffle_index : Nat
  election_results : List ElectionResult
  initial_deck_fascist : Nat
  initial_deck_liberal : Nat
  total_discarded : Nat
  total_leftover : Nat

/-- ShuffleAnalysis::total_seen_blues (src/players/mod.rs lines 401-403). -/
def ShuffleAnalysis.total_seen_blues (sa : ShuffleAnalysis) : Nat :=
  (sa.election_results.map (fun er => er.seen_blues)).sum

/-- The scan step of shuffle_election_results (src/players/mod.rs lines
337-365): folds the (placed-fascist, placed-liberal) counters over the
shuffle groups while emitting one ShuffleAnalysis per group. -/
def shuffle_scan (total_lib_cards total_fasc_cards total_cards : Nat) :
    Nat × Nat → List (ElectionResult × List ElectionResult) →
    List ShuffleAnalysis
  | _, [] => []
  | (fpc, lpc), g :: rest =>
    let election_results := g.1 :: g.2
    let total_drawn :=
      (election_results.map (fun er => er.cards_total_drawn_discarded.1)).sum
    let total_discarded :=
      (election_results.map (fun er => er.cards_total_drawn_discarded.2)).sum
    let blues_passed :=
      (election_results.filter
        (fun er => er.passed_policy = Policy.Liberal)).length
    let reds_passed := election_results.length - blues_passed
    { shuffle_index := g.1.group_shuffle_index,
      election_results := election_results,
      initial_deck_fascist := total_fasc_cards - fpc,
      initial_deck_liberal := total_lib_cards - lpc,
      total_discarded := total_discarded,
      total_leftover := total_cards - (fpc + lpc) - total_drawn } ::
      shuffle_scan total_lib_cards total_fasc_cards total_cards
        (fpc + reds_passed, lpc + blues_passed) rest

/-- PlayerState::shuffle_election_results (src/players/mod.rs lines
323-367). -/
def PlayerState.shuffle_election_results (ps : PlayerState) :
    List ShuffleAnalysis :=
  let cfg := ps.table_configuration
  let total_lib_cards :=
    cfg.initial_placed_liberal_policies + cfg.initial_liberal_deck_policies
  let total_fasc_cards :=
    cfg.initial_placed_fascist_policies + cfg.initial_fascist_deck_policies
  let total_cards := total_lib_cards + total_fasc_cards
  shuffle_scan total_lib_cards total_fasc_cards total_cards
    (cfg.initial_placed_fascist_policies, cfg.initial_placed_liberal_policies)
    (runs_by (fun a b => a.group_shuffle_index == b.group_shuffle_index)
      ps.governments)

/-- iter_elected (src/players/mod.rs lines 406-411). -/
def iter_elected (govs : List ElectionResult) : List ElectedGovernment :=
  govs.filterMap (fun er =>
    match er with
    | ElectionResult.TopDeck _ _ => Option.none
    | ElectionResult.Election gov => Option.some gov)

/-- PlayerState::collect_information (src/players/mod.rs lines 227-321). -/
def PlayerState.collect_information (ps : PlayerState) : List Information :=
  let peek_conflicts :=
    (tuple_windows (iter_elected ps.governments)).filterMap (fun fs =>
      match fs.1.presidential_action with
      | PresidentialAction.TopDeckPeek claim =>
        if fs.2.president_claimed_blues ≠
            (claim.filter (fun x => x = Policy.Liberal)).length then
          Option.some (Information.PolicyConflict fs.1.president
            fs.2.president)
        else Option.none
      | PresidentialAction.PeekAndBurn claim false _ =>
        if (fs.2.president_claimed_blues = 0 ∧ claim = Policy.Liberal) ∨
            (fs.2.president_claimed_blues = 3 ∧ claim = Policy.Fascist) then
          Option.some (Information.PolicyConflict fs.1.president
            fs.2.president)
        else Option.none
      | _ => Option.none)
  let immediate_conflicts :=
    (iter_elected ps.governments).flatMap (fun gov =>
      ([if gov.chancellor_confirmed_not_hitler then
          Option.some (Information.ConfirmedNotHitler gov.chancellor)
        else Option.none,
        if gov.conflict then
          Option.some (Information.PolicyConflict gov.president
            gov.chancellor)
        else Option.none,
        match gov.presidential_action with
        | PresidentialAction.NoAction => Option.none
        | PresidentialAction.Kill dead_player =>
          Option.some (Information.ConfirmedNotHitler dead_player)
        | PresidentialAction.Investigation investigatee Policy.Fascist =>
          Option.some (Information.FascistInvestigation gov.president
            investigatee)
        | PresidentialAction.Investigation investigatee Policy.Liberal =>
          Option.some (Information.LiberalInvestigation gov.president
            investigatee)
        | PresidentialAction.RevealParty investigator Policy.Fascist =>
          Option.some (Information.FascistInvestigation investigator
            gov.president)
        | PresidentialAction.RevealParty investigator Policy.Liberal =>
          Option.some (Information.LiberalInvestigation investigator
            gov.president)
        | _ => Option.none]).filterMap id)
  let shuffles := ps.shuffle_election_results
  let card_count_deductions :=
    shuffles.filterMap (fun sa =>
      let seen_blues := sa.total_seen_blues
      let governments := iter_elected sa.election_results
      if seen_blues + sa.total_leftover < sa.initial_deck_liberal then
        Option.some (Information.AtLeastOneFascist
          (governments.filterMap (fun eg =>
            if eg.president_claimed_blues < 3 then Option.some eg.president
            else Option.none)))
      else if sa.initial_deck_liberal < seen_blues then
        Option.some (Information.AtLeastOneFascist
          (governments.filterMap (fun eg =>
            if 0 < eg.president_claimed_blues then Option.some eg.president
            else Option.none)))
      else Option.none)
  immediate_conflicts ++ peek_conflicts ++ card_count_deductions ++
    ps.available_information

/-- The `players_alive` local of PlayerState::is_eligible_chancellor
(src/players/mod.rs lines 134-137): table size minus the number of elected
governments whose presidential action was a kill. -/
def PlayerState.players_alive (ps : PlayerState) : Nat :=
  ps.table_configuration.table_size -
    ((iter_elected ps.governments).filter (fun g =>
      match g.presidential_action with
      | PresidentialAction.Kill _ => true
      | _ => false)).length

/-- PlayerState::is_eligible_chancellor (src/players/mod.rs lines
133-145). -/
def PlayerState.is_eligible_chancellor (ps : PlayerState) (player : PlayerID) :
    Bool :=
  match ps.governments.getLast? with
  | Option.none => true
  | Option.some (ElectionResult.TopDeck _ _) => true
  | Option.some (ElectionResult.Election gov) =>
    !(gov.chancellor = player) &&
      (!(gov.president = player) || decide (ps.players_alive ≤ 5))

/-- BTreeMap::get on a role assignment (`roles.get(p)` in
src/players/filter_engine.rs): association-list lookup. -/
def lookup_role (roles : RoleAssignment) (p : PlayerID) : Option SecretRole :=
  roles.lookup p

/-- The `lp` lookup closure of the filter predicates
(src/players/filter_engine.rs line 21 and friends): a missing player id is a
BadPlayerID error. -/
def lp (roles : RoleAssignment) (p : PlayerID) : Except Error SecretRole :=
  match lookup_role roles p with
  | Option.some r => Except.ok r
  | Option.none => Except.error (Error.BadPlayerID p)

/-- no_aggressive_hitler_filter (src/players/filter_engine.rs lines
17-32). -/
def no_aggressive_hitler_filter (roles : RoleAssignment)
    (information : Information) : Except Error Bool :=
  match information with
  | Information.PolicyConflict l r => do
    let rl ← lp roles l
    let rr ← lp roles r
    Except.ok (!(rl = SecretRole.Hitler) && !(rr = SecretRole.Hitler))
  | Information.FascistInvestigation investigator _ => do
    let ri ← lp roles investigator
    Except.ok (!(ri = SecretRole.Hitler))
  | _ => Except.ok true

/-- no_fascist_fascist_conflict_filter (src/players/filter_engine.rs lines
34-48). -/
def no_fascist_fascist_conflict_filter (roles : RoleAssignment)
    (information : Information) : Except Error Bool :=
  match information with
  | Information.PolicyConflict l r => do
    let rl ← lp roles l
    let rr ← lp roles r
    Except.ok (!(rl.is_fascist = rr.is_fascist))
  | Information.FascistInvestigation investigator investigatee => do
    let ri ← lp roles investigator
    let re ← lp roles investigatee
    Except.ok (!(ri.is_fascist = re.is_fascist))
  | _ => Except.ok true

/-- universal_deducable_information (src/players/filter_engine.rs lines
50-76). -/
def universal_deducable_information (roles : RoleAssignment)
    (information : Information) : Except Error Bool :=
  match information with
  | Information.ConfirmedNotHitler p => do
    let r ← lp roles p
    Except.ok (!(r = SecretRole.Hitler))
  | Information.PolicyConflict l r => do
    let rl ← lp roles l
    let rr ← lp roles r
    Except.ok (rl.is_fascist || rr.is_fascist)
  | Information.LiberalInvestigation investigator investigatee => do
    let ri ← lp roles investigator
    let re ← lp roles investigatee
    Except.ok (decide (re = SecretRole.Liberal) ||
      (ri.is_fascist && re.is_fascist))
  | Information.FascistInvestigation investigator investigatee => do
    let ri ← lp roles investigator
    let re ← lp roles investigatee
    Except.ok (ri.is_fascist || re.is_fascist)
  | Information.HardFact pid role => do
    let r ← lp roles pid
    Except.ok (decide (r = role))
  | Information.AtLeastOneFascist vsp => do
    let rs ← vsp.mapM (lp roles)
    Except.ok (rs.any (fun role => role.is_fascist))

/-- valid_role_assignments (src/players/filter_engine.rs lines 78-93). -/
def valid_role_assignments (roles : RoleAssignment)
    (information : List Information) (no_aggressive_hitler : Bool)
    (no_fascist_fascist_conflict : Bool) : Except Error Bool := do
  let vb ← information.mapM (fun i => do
    let u ← universal_deducable_information roles i
    let h ← if no_aggressive_hitler then no_aggressive_hitler_filter roles i
      else Except.ok true
    let c ← if no_fascist_fascist_conflict then
        no_fascist_fascist_conflict_filter roles i
      else Except.ok true
    Except.ok (u && h && c))
  Except.ok (vb.all (fun x => x))

/-- The per-assignment retention predicate of
filter_assigned_roles_inconvenient (src/players/filter_engine.rs lines
104-116): validity errors are swallowed by `unwrap_or(false)`. -/
def assignment_kept (ps : PlayerState) (allow_fascist_fascist_conflict
    allow_aggressive_hitler : Bool) (temporary_infomration : List Information)
    (roles : RoleAssignment) : Bool :=
  match valid_role_assignments roles
      (ps.collect_information ++ temporary_infomration)
      (!allow_aggressive_hitler) (!allow_fascist_fascist_conflict) with
  | Except.ok b => b
  | Except.error _ => false

/-- filter_assigned_roles_inconvenient (src/players/filter_engine.rs lines
95-124). -/
def filter_assigned_roles_inconvenient (ps : PlayerState)
    (allow_fascist_fascist_conflict allow_aggressive_hitler : Bool)
    (temporary_infomration : List Information) :
    Except Error (List RoleAssignment) :=
  let filtered_assignments :=
    ps.current_roles.filter (assignment_kept ps
      allow_fascist_fascist_conflict allow_aggressive_hitler
      temporary_infomration)
  if filtered_assignments.isEmpty then Except.error Error.LogicalInconsistency
  else Except.ok filtered_assignments

/-- filter_assigned_roles (src/players/filter_engine.rs lines 133-144). -/
def filter_assigned_roles (flags : Bool × Bool) (ps : PlayerState)
    (temporary_infomration : List Information) :
    Except Error (List RoleAssignment) :=
  filter_assigned_roles_inconvenient ps flags.1 flags.2 temporary_infomration

/-- Boolean ≤ on secret roles in declaration order, driving the
`sorted` call inside filtered_histogramm. -/
def SecretRole.to_index : SecretRole → Nat
  | SecretRole.Liberal => 0
  | SecretRole.RegularFascist => 1
  | SecretRole.Hitler => 2

/-- filtered_histogramm (src/players/filter_engine.rs lines 146-202): per
player, per role, (count, total) pairs.  The `sorted_by_key`/`group_by`
pipeline is modelled via mergeSort and `runs_by`; the inner HashMap is
modelled as the association list of its entries. -/
def filtered_histogramm (flags : Bool × Bool) (ps : PlayerState)
    (temporary_infomration : List Information) :
    Except Error
      (List (PlayerID × (List (SecretRole × FilterResult) × Nat))) := do
  let filtered_assignments ← filter_assigned_roles flags ps
    temporary_infomration
  let pairs := List.insertionSort (fun a b => a.1 ≤ b.1)
    (filtered_assignments.flatMap (fun ra => ra))
  Except.ok ((runs_by (fun a b => a.1 == b.1) pairs).map (fun grp =>
    let roles := List.insertionSort
      (fun a b : SecretRole => a.to_index ≤ b.to_index)
      ((grp.1 :: grp.2).map (fun pr => pr.2))
    let counted := (runs_by (fun a b => a == b) roles).map (fun rgrp =>
      (rgrp.1, rgrp.2.length + 1))
    let total := (counted.map (fun rc => rc.2)).sum
    (grp.1.1,
      (counted.map (fun rc =>
        (rc.1, { num_matching := rc.2, num_checked := total })), total))))

/-- TreeNode (src/players/tree.rs lines 17-24).  The `absolute_probability`
f64 field (written only by the separate annotate_trees_absolute pass) is
floating point and omitted from the model. -/
inductive TreeNode where
  | mk : FilterResult → Nat → ElectionResult → List TreeNode → TreeNode

/-- TreeNode field accessor: relative_probability. -/
def TreeNode.relative_probability : TreeNode → FilterResult
  | TreeNode.mk rp _ _ _ => rp

/-- TreeNode field accessor: original_claimed_blues. -/
def TreeNode.original_claimed_blues : TreeNode → Nat
  | TreeNode.mk _ ocb _ _ => ocb

/-- TreeNode field accessor: relevant_election_result. -/
def TreeNode.relevant_election_result : TreeNode → ElectionResult
  | TreeNode.mk _ _ rer _ => rer

/-- TreeNode field accessor: children. -/
def TreeNode.children : TreeNode → List TreeNode
  | TreeNode.mk _ _ _ cs => cs

/-- Replacement of the relative_probability field, as done by the in-place
mutations of annotate_trees_relative. -/
def TreeNode.set_relative_probability : TreeNode → FilterResult → TreeNode
  | TreeNode.mk _ ocb rer cs, rp => TreeNode.mk rp ocb rer cs

/-- The sibling-group clause of TreeNode::probability_check_recursive: the
matching counts of the group sum to the `.max().unwrap_or(0)` of its checked
counts. -/
def sibling_conservation (nodes : List TreeNode) : Bool :=
  (nodes.map (fun n => n.relative_probability.num_matching)).sum ==
    ((nodes.map (fun n => n.relative_probability.num_checked)).max?.getD 0)

mutual

/-- The recursive clause of TreeNode::probability_check_recursive for one
node: its children group satisfies the conservation clause, recursively. -/
def node_children_check : TreeNode → Bool
  | TreeNode.mk _ _ _ children =>
    sibling_conservation children && children_check children

/-- The per-node recursion of TreeNode::probability_check_recursive over a
sibling group. -/
def children_check : List TreeNode → Bool
  | [] => true
  | n :: rest => node_children_check n && children_check rest

end

/-- TreeNode::probability_check_recursive (src/players/tree.rs lines
27-40). -/
def probability_check_recursive (nodes : List TreeNode) : Bool :=
  sibling_conservation nodes && children_check nodes

/-- TreeNode::pres_guaranteed_fasc (src/players/tree.rs lines 45-48). -/
def TreeNode.pres_guaranteed_fasc (n : TreeNode) : Bool :=
  !(match n.relevant_election_result with
    | ElectionResult.Election eg =>
      decide (eg.president_claimed_blues = n.original_claimed_blues)
    | _ => false) &&
  !(match n.relevant_election_result with
    | ElectionResult.TopDeck _ _ => true
    | _ => false)

/-- TreeNode::guaranteed_fasc_chancellor (src/players/tree.rs lines
50-52). -/
def TreeNode.guaranteed_fasc_chancellor (n : TreeNode) : Bool :=
  match n.relevant_election_result with
  | ElectionResult.Election eg =>
    decide (1 < ((eg.president_claimed_blues : Int) -
      (eg.chancellor_claimed_blues : Int)).natAbs)
  | _ => false

/-- The guaranteed-fascist facts along a node path, shared by
logically_consistent_path_filter (src/players/tree.rs lines 98-115) and
annotate_trees_relative_recursive (lines 198-215). -/
def confirmed_deduced_path_fasc (nodes : List TreeNode) : List Information :=
  (nodes.flatMap (fun tn =>
    ([match tn.relevant_election_result with
      | ElectionResult.TopDeck _ _ => Option.none
      | ElectionResult.Election eg =>
        if tn.pres_guaranteed_fasc then Option.some eg.president
        else Option.none,
      match tn.relevant_election_result with
      | ElectionResult.TopDeck _ _ => Option.none
      | ElectionResult.Election eg =>
        if tn.guaranteed_fasc_chancellor then Option.some eg.chancellor
        else Option.none]).filterMap id)).map
    (fun id => Information.AtLeastOneFascist [id])

/-- logically_consistent_path_filter (src/players/tree.rs lines 93-119). -/
def logically_consistent_path_filter (nodes : List TreeNode)
    (player_state : PlayerState) : Bool :=
  match filtered_histogramm (true, true) player_state
      (confirmed_deduced_path_fasc nodes) with
  | Except.ok _ => true
  | Except.error _ => false

mutual

/-- filter_paths_recursive (src/players/tree.rs lines 329-352).  The Rust
version pushes the node (with its children taken out) onto the shared
parents vector before recursing or testing; here the extended path is passed
explicitly. -/
def filter_paths_recursive (filter_predicate : List TreeNode → Bool)
    (parents : List TreeNode) : TreeNode → Option TreeNode
  | TreeNode.mk rp ocb rer [] =>
    if filter_predicate (parents ++ [TreeNode.mk rp ocb rer []]) then
      Option.some (TreeNode.mk rp ocb rer [])
    else Option.none
  | TreeNode.mk rp ocb rer (c :: cs) =>
    let children := filter_paths_list filter_predicate
      (parents ++ [TreeNode.mk rp ocb rer []]) (c :: cs)
    if children.isEmpty then Option.none
    else Option.some (TreeNode.mk rp ocb rer children)

/-- The filter_map over sibling nodes inside filter_paths and
filter_paths_recursive. -/
def filter_paths_list (filter_predicate : List TreeNode → Bool)
    (parents : List TreeNode) : List TreeNode → List TreeNode
  | [] => []
  | c :: cs =>
    match filter_paths_recursive filter_predicate parents c with
    | Option.some c2 => c2 :: filter_paths_list filter_predicate parents cs
    | Option.none => filter_paths_list filter_predicate parents cs

end

/-- filter_paths (src/players/tree.rs lines 317-327). -/
def filter_paths (tree : List TreeNode)
    (filter_predicate : List TreeNode → Bool) : List TreeNode :=
  filter_paths_list filter_predicate [] tree

/-- recursively_generate_tree (src/players/tree.rs lines 432-477). -/
def recursively_generate_tree : List ElectionResult → List TreeNode
  | [] => []
  | er :: rest =>
    let passed_blues := er.passed_blues
    let kids := recursively_generate_tree rest
    match er with
    | ElectionResult.TopDeck _ _ =>
      [TreeNode.mk (FilterResult.none 1) passed_blues er kids]
    | ElectionResult.Election eg =>
      (List.range 3).map (fun x =>
        TreeNode.mk (FilterResult.none 1) eg.president_claimed_blues
          (ElectionResult.Election
            { eg with president_claimed_blues := x + passed_blues }) kids)

/-- generate_tree (src/players/tree.rs lines 428-430). -/
def generate_tree (election_results : ShuffleAnalysis) : List TreeNode :=
  recursively_generate_tree election_results.election_results

/-- fold_children_legal_draws (src/players/tree.rs lines 176-188):
index-wise union of the children's legal-draw sets, None on an empty
family and at truncated or unconstrained indices. -/
def fold_children_legal_draws :
    List (List (Option (List Nat))) → Option (List (Option (List Nat)))
  | [] => Option.none
  | v :: vs =>
    Option.some (vs.foldl (fun lvec rvec =>
      List.zipWith (fun lo ro =>
        match lo, ro with
        | Option.some lset, Option.some rset => Option.some (lset ∪ rset)
        | _, _ => Option.none) lvec rvec) v)

/-- The hard-confirmed-liberal extraction from a histogram, shared by
annotate_trees_relative (src/players/tree.rs lines 127-139) and
annotate_trees_relative_recursive (lines 216-229). -/
def extract_confirmed_libs
    (histogram : List (PlayerID × (List (SecretRole × FilterResult) × Nat))) :
    List PlayerID :=
  histogram.filterMap (fun entry =>
    match entry.2.1.lookup SecretRole.Liberal with
    | Option.some fr =>
      if fr.num_checked = fr.num_matching then Option.some entry.1
      else Option.none
    | Option.none => Option.none)

mutual

/-- annotate_trees_relative_recursive (src/players/tree.rs lines 190-315).
The shared mutable parent-path vector is passed explicitly (each ancestor
pushed with its children taken out, as in the source); `Except.error ()`
models the panic of the `.unwrap()` on the parent-path histogram (line 229),
`Except.ok Option.none` models pruning the subtree. -/
def annotate_trees_relative_recursive (shuffle_analysis : ShuffleAnalysis)
    (player_state : PlayerState) (hard_confirmed_libs : List PlayerID)
    (parent_path_nodes : List TreeNode) (node : TreeNode) (depth : Nat) :
    Except Unit (Option (TreeNode × List (Option (List Nat)))) :=
  match filtered_histogramm (true, true) player_state
      (confirmed_deduced_path_fasc parent_path_nodes) with
  | Except.error _ => Except.error ()
  | Except.ok histogram =>
    let parent_path_confirmed_libs := extract_confirmed_libs histogram
    match node with
    | TreeNode.mk _ ocb rer [] =>
      let out_vec : List (Option (List Nat)) :=
        List.replicate (depth + 1) Option.none
      let parent_path_ers :=
        parent_path_nodes.map (fun tn => tn.relevant_election_result)
      let relative_probability := complex_card_counter
        shuffle_analysis.initial_deck_liberal
        shuffle_analysis.initial_deck_fascist
        shuffle_analysis.election_results parent_path_ers out_vec
        hard_confirmed_libs parent_path_confirmed_libs rer
      let out_vec := out_vec.set depth (Option.some [rer.seen_blues])
      Except.ok (if 0 < relative_probability.num_matching then
          Option.some (TreeNode.mk relative_probability ocb rer [], out_vec)
        else Option.none)
    | TreeNode.mk rp ocb rer (c :: cs) => do
      let results ← annotate_trees_relative_list shuffle_analysis player_state
        hard_confirmed_libs (parent_path_nodes ++ [TreeNode.mk rp ocb rer []])
        (c :: cs) (depth + 1)
      match fold_children_legal_draws (results.map (fun r => r.2)) with
      | Option.none => Except.ok Option.none
      | Option.some follow_on_card_constraints =>
        let parent_path_ers :=
          (parent_path_nodes.map (fun tn => tn.relevant_election_result)) ++
            [rer]
        let children := (results.map (fun r => r.1)).filterMap (fun child =>
          let rp := complex_card_counter
            shuffle_analysis.initial_deck_liberal
            shuffle_analysis.initial_deck_fascist
            shuffle_analysis.election_results parent_path_ers
            follow_on_card_constraints hard_confirmed_libs
            parent_path_confirmed_libs child.relevant_election_result
          if 0 < rp.num_matching then
            Option.some (child.set_relative_probability rp)
          else Option.none)
        let follow_on_card_constraints := follow_on_card_constraints.set depth
          (Option.some [rer.seen_blues])
        Except.ok (Option.some
          (TreeNode.mk rp ocb rer children, follow_on_card_constraints))

/-- The filter_map over sibling trees inside annotate_trees_relative
(src/players/tree.rs lines 143-156 and 265-277), with panic propagation. -/
def annotate_trees_relative_list (shuffle_analysis : ShuffleAnalysis)
    (player_state : PlayerState) (hard_confirmed_libs : List PlayerID)
    (parent_path_nodes : List TreeNode) (nodes : List TreeNode)
    (depth : Nat) :
    Except Unit (List (TreeNode × List (Option (List Nat)))) :=
  match nodes with
  | [] => Except.ok []
  | n :: rest => do
    let r ← annotate_trees_relative_recursive shuffle_analysis player_state
      hard_confirmed_libs parent_path_nodes n depth
    let rs ← annotate_trees_relative_list shuffle_analysis player_state
      hard_confirmed_libs parent_path_nodes rest depth
    match r with
    | Option.some x => Except.ok (x :: rs)
    | Option.none => Except.ok rs

end

/-- annotate_trees_relative (src/players/tree.rs lines 121-174).
`Except.error ()` models a panic: either the `.unwrap()` on the empty
fold of root constraint vectors (line 158) or a panic inside the
recursion. -/
def annotate_trees_relative (trees : List TreeNode)
    (shuffle : ShuffleAnalysis) (player_state : PlayerState) :
    Except Unit (List TreeNode) := do
  let hard_confirmed_libs :=
    match filtered_histogramm (true, true) player_state [] with
    | Except.ok histogram => extract_confirmed_libs histogram
    | Except.error _ => []
  let results ← annotate_trees_relative_list shuffle player_state
    hard_confirmed_libs [] trees 0
  match fold_children_legal_draws (results.map (fun r => r.2)) with
  | Option.none => Except.error ()
  | Option.some follow_on_card_constraints =>
    Except.ok ((results.map (fun r => r.1)).map (fun child =>
      child.set_relative_probability (complex_card_counter
        shuffle.initial_deck_liberal shuffle.initial_deck_fascist
        shuffle.election_results [] follow_on_card_constraints
        hard_confirmed_libs [] child.relevant_election_result)))

mutual

/-- Structural alignment of one tree node with the election results of a
shuffle: the node at depth `d` draws as many cards as the `d`-th election
result of the shuffle, and its children align at depth `d + 1`.  This is the
shape produced by generate_tree and preserved by filter_paths. -/
def node_shape (ers : List ElectionResult) (d : Nat) : TreeNode → Bool
  | TreeNode.mk _ _ rer children =>
    (match ers[d]? with
     | Option.some er =>
       rer.cards_total_drawn_discarded.1 == er.cards_total_drawn_discarded.1
     | Option.none => false) &&
    nodes_shape ers (d + 1) children

/-- Structural alignment of a sibling group: every member aligns with the
shuffle and the members carry pairwise distinct seen-blue values. -/
def nodes_shape (ers : List ElectionResult) (d : Nat) : List TreeNode → Bool
  | [] => true
  | n :: rest =>
    node_shape ers d n &&
    rest.all (fun m =>
      !(n.relevant_election_result.seen_blues ==
        m.relevant_election_result.seen_blues)) &&
    nodes_shape ers d rest

end

/-- The standard 5-player configuration
(GameConfiguration::new_standard(5, false)). -/
def cfg5 : GameConfiguration :=
  { table_size := 5, num_regular_fascists := 1,
    initial_liberal_deck_policies := 6, initial_fascist_deck_policies := 11,
    initial_placed_liberal_policies := 0,
    initial_placed_fascist_policies := 0,
    fascist_board_configuration := SMALL_BOARD,
    hitler_zone_passed_fascist_policies := 3,
    veto_zone_passed_fascist_policies := 5 }

/-- A fresh 5-player session: no facts, no governments. -/
def ps5 : PlayerState :=
  { table_configuration := cfg5, available_information := [],
    governments := [] }

/-- A deliberately tiny configuration (two seats, no regular fascist, a
two-card deck) used to evaluate the probability-tree pipeline on concrete
input. -/
def cfg2 : GameConfiguration :=
  { table_size := 2, num_regular_fascists := 0,
    initial_liberal_deck_policies := 1, initial_fascist_deck_policies := 1,
    initial_placed_liberal_policies := 0,
    initial_placed_fascist_policies := 0,
    fascist_board_configuration := SMALL_BOARD,
    hitler_zone_passed_fascist_policies := 3,
    veto_zone_passed_fascist_policies := 5 }

/-- A fresh tiny session. -/
def ps2 : PlayerState :=
  { table_configuration := cfg2, available_information := [],
    governments := [] }

/-- A one-shuffle analysis over the tiny session: a single liberal
top-deck from a one-liberal/one-fascist deck. -/
def sa2 : ShuffleAnalysis :=
  { shuffle_index := 0,
    election_results :=
      [ElectionResult.TopDeck Policy.Liberal
        { cards_left := 2, cards_discarded := 0, shuffle_index := 0 }],
    initial_deck_fascist := 1, initial_deck_liberal := 1,
    total_discarded := 0, total_leftover := 1 }

/-- A concrete elected government whose president claimed three blues while
a liberal policy was passed. -/
def eg3 : ElectedGovernment :=
  { president := 1, chancellor := 2, president_claimed_blues := 3,
    chancellor_claimed_blues := 2, conflict := false,
    policy_passed := Policy.Liberal,
    presidential_action := PresidentialAction.NoAction,
    deck_context := CardContext.mk 17 0 0,
    chancellor_confirmed_not_hitler := false }

/-- A 5-player session whose last (and only) history entry is the elected
government eg3 (president seat 1, chancellor seat 2, nobody killed). -/
def ps9 : PlayerState :=
  { table_configuration := cfg5, available_information := [],
    governments := [ElectionResult.Election eg3] }

/-- The claimed-blue value recorded in a tree node's election result. -/
def tree_claimed_blues (n : TreeNode) : Nat :=
  match n.relevant_election_result with
  | ElectionResult.Election eg => eg.president_claimed_blues
  | ElectionResult.TopDeck _ _ => 0

/-- The deck offset reached after the first j election results of a
shuffle: the sum of their drawn-card counts.  This is both the scan offset
of the j-th hard fact inside complex_card_counter and the target offset
produced by a j-step hypothesis path through the tree. -/
def drawn_offset (ers : List ElectionResult) (j : Nat) : Nat :=
  ((ers.take j).map (fun er => er.cards_total_drawn_discarded.1)).sum

/-- The invariant carried by one node through the relative-annotation
recursion: on shaped input with a drawn-consistent parent path, a kept
node preserves its election result, returns a constraint vector that
records its own seen-blue value at its depth, and its annotated subtree
passes the probability check. -/
def annotate_node_inv (sa : ShuffleAnalysis) (ps : PlayerState)
    (hcl : List PlayerID) (path : List TreeNode) (node : TreeNode)
    (depth : Nat) : Prop :=
  ∀ (node2 : TreeNode) (vec : List (Option (List Nat))),
    node_shape sa.election_results depth node = true →
    (path.map (fun tn =>
      tn.relevant_election_result.cards_total_drawn_discarded.1)).sum =
      drawn_offset sa.election_results depth →
    annotate_trees_relative_recursive sa ps hcl path node depth =
      Except.ok (Option.some (node2, vec)) →
    node2.relevant_election_result = node.relevant_election_result ∧
    depth + 1 ≤ vec.length ∧
    vec[depth]? = Option.some (Option.some
      [node.relevant_election_result.seen_blues]) ∧
    node_children_check node2 = true

/-- The invariant carried by a sibling group through the
relative-annotation recursion. -/
def annotate_list_inv (sa : ShuffleAnalysis) (ps : PlayerState)
    (hcl : List PlayerID) (path : List TreeNode) (nodes : List TreeNode)
    (depth : Nat) : Prop :=
  ∀ results : List (TreeNode × List (Option (List Nat))),
    nodes_shape sa.election_results depth nodes = true →
    (path.map (fun tn =>
      tn.relevant_election_result.cards_total_drawn_discarded.1)).sum =
      drawn_offset sa.election_results depth →
    annotate_trees_relative_list sa ps hcl path nodes depth =
      Except.ok results →
    (∀ r ∈ results,
      (∃ n ∈ nodes, r.1.relevant_election_result =
        n.relevant_election_result) ∧
      depth + 1 ≤ r.2.length ∧
      r.2[depth]? = Option.some (Option.some
        [r.1.relevant_election_result.seen_blues]) ∧
      node_children_check r.1 = true) ∧
    (results.map (fun r =>
      r.1.relevant_election_result.seen_blues)).Nodup

/-- Totality of the seat-key order used by filtered_histogramm's sort. -/
instance pairKeyTotal :
    IsTotal (PlayerID × SecretRole) (fun a b => a.1 ≤ b.1) :=
  ⟨fun a b => Nat.le_total a.1 b.1⟩

/-- Transitivity of the seat-key order used by filtered_histogramm's
sort. -/
instance pairKeyTrans :
    IsTrans (PlayerID × SecretRole) (fun a b => a.1 ≤ b.1) :=
  ⟨fun _ _ _ h1 h2 => Nat.le_trans h1 h2⟩

/-! ### Theorems -/

/-- C8: atomic_draw reshuffles — cards_left grows by cards_discarded, the
discard pile resets and the shuffle index increments — exactly when
cards_left minus draw_count (saturating) is below 3; otherwise it removes
draw_count cards and grows the discard pile by discard_count.  In
particular {cards_left 3, cards_discarded 2, shuffle_index 0} drawn (3,2)
becomes {cards_left 5, cards_discarded 0, shuffle_index 1}. -/
theorem atomic_draw_spec :
    (∀ (c : CardContext) (draw_count discard_count : Nat),
      c.atomic_draw draw_count discard_count =
        (if c.cards_left - draw_count < 3 then
          CardContext.mk (c.cards_left + c.cards_discarded) 0
            (c.shuffle_index + 1)
        else
          CardContext.mk (c.cards_left - draw_count)
            (c.cards_discarded + discard_count) c.shuffle_index)) ∧
    (CardContext.mk 3 2 0).atomic_draw 3 2 = CardContext.mk 5 0 1 := by
  constructor
  · intro c draw_count discard_count
    rfl
  · decide

/-- C10: complex_card_counter and next_blues_count always report
num_matching ≤ num_checked, so the exact probability num_matching /
num_checked is within [0, 1] (with the 0 / 0 convention for an empty
checked population). -/
theorem filter_result_probability_bounds (num_total_lib num_total_fasc : Nat)
    (hard_facts hypotheses : List ElectionResult)
    (legal_follow_on_sets : List (Option (List Nat)))
    (hard_confirmed_liberals path_assumed_liberals : List PlayerID)
    (new_hypothesis : ElectionResult)
    (window_size desired_blues guaranteed_blues guaranteed_reds : Nat) :
    (complex_card_counter num_total_lib num_total_fasc hard_facts hypotheses
        legal_follow_on_sets hard_confirmed_liberals path_assumed_liberals
        new_hypothesis).num_matching ≤
      (complex_card_counter num_total_lib num_total_fasc hard_facts
        hypotheses legal_follow_on_sets hard_confirmed_liberals
        path_assumed_liberals new_hypothesis).num_checked ∧
    (next_blues_count num_total_lib num_total_fasc window_size desired_blues
        guaranteed_blues guaranteed_reds).num_matching ≤
      (next_blues_count num_total_lib num_total_fasc window_size
        desired_blues guaranteed_blues guaranteed_reds).num_checked ∧
    (0 : ℚ) ≤
      ((complex_card_counter num_total_lib num_total_fasc hard_facts
          hypotheses legal_follow_on_sets hard_confirmed_liberals
          path_assumed_liberals new_hypothesis).num_matching : ℚ) /
        ((complex_card_counter num_total_lib num_total_fasc hard_facts
          hypotheses legal_follow_on_sets hard_confirmed_liberals
          path_assumed_liberals new_hypothesis).num_checked : ℚ) ∧
    ((complex_card_counter num_total_lib num_total_fasc hard_facts
        hypotheses legal_follow_on_sets hard_confirmed_liberals
        path_assumed_liberals new_hypothesis).num_matching : ℚ) /
      ((complex_card_counter num_total_lib num_total_fasc hard_facts
        hypotheses legal_follow_on_sets hard_confirmed_liberals
        path_assumed_liberals new_hypothesis).num_checked : ℚ) ≤ 1 ∧
    (0 : ℚ) ≤
      ((next_blues_count num_total_lib num_total_fasc window_size
          desired_blues guaranteed_blues guaranteed_reds).num_matching : ℚ) /
        ((next_blues_count num_total_lib num_total_fasc window_size
          desired_blues guaranteed_blues guaranteed_reds).num_checked : ℚ) ∧
    ((next_blues_count num_total_lib num_total_fasc window_size
        desired_blues guaranteed_blues guaranteed_reds).num_matching : ℚ) /
      ((next_blues_count num_total_lib num_total_fasc window_size
        desired_blues guaranteed_blues guaranteed_reds).num_checked : ℚ) ≤
      1 := by
  have h1 : (complex_card_counter num_total_lib num_total_fasc hard_facts
      hypotheses legal_follow_on_sets hard_confirmed_liberals
      path_assumed_liberals new_hypothesis).num_matching ≤
      (complex_card_counter num_total_lib num_total_fasc hard_facts
        hypotheses legal_follow_on_sets hard_confirmed_liberals
        path_assumed_liberals new_hypothesis).num_checked := by
    simp only [complex_card_counter]
    exact List.countP_le_length _
  have h2 : (next_blues_count num_total_lib num_total_fasc window_size
      desired_blues guaranteed_blues guaranteed_reds).num_matching ≤
      (next_blues_count num_total_lib num_total_fasc window_size
        desired_blues guaranteed_blues guaranteed_reds).num_checked := by
    simp only [next_blues_count]
    exact List.countP_le_length _
  refine ⟨h1, h2, ?_, ?_, ?_, ?_⟩
  · exact div_nonneg (by positivity) (by positivity)
  · exact div_le_one_of_le₀ (by exact_mod_cast h1) (by positivity)
  · exact div_nonneg (by positivity) (by positivity)
  · exact div_le_one_of_le₀ (by exact_mod_cast h2) (by positivity)

/-- A deck passing the hard-fact scan for an extended fact list passes it
for the prefix: the scan threads its offset left to right, so the appended
fact only adds one more conjunct. -/
theorem hard_facts_scan_append (hcl : List PlayerID) (d : List Policy)
    (l1 l2 : List ElectionResult) : ∀ offset : Nat,
    hard_facts_scan hcl d offset (l1 ++ l2) = true →
    hard_facts_scan hcl d offset l1 = true := by
  induction l1 with
  | nil => intro offset _; rfl
  | cons er rest ih =>
    intro offset h
    simp only [List.cons_append, hard_facts_scan, Bool.and_eq_true] at h ⊢
    exact ⟨h.1, ih _ h.2⟩

/-- A deck passing the follow-on scan for an extended fact list passes it
for the prefix: offsets and follow-on indices of prefix facts are
unchanged. -/
theorem follow_on_scan_append (sets : List (Option (List Nat)))
    (plibs : List PlayerID) (d : List Policy)
    (l1 l2 : List ElectionResult) : ∀ offset idx : Nat,
    follow_on_scan sets plibs d offset idx (l1 ++ l2) = true →
    follow_on_scan sets plibs d offset idx l1 = true := by
  induction l1 with
  | nil => intro offset idx _; rfl
  | cons er rest ih =>
    intro offset idx h
    simp only [List.cons_append, follow_on_scan, Bool.and_eq_true] at h ⊢
    exact ⟨h.1, ih _ _ h.2⟩

/-- A deck passing the hypothesis scan for an extended hypothesis list
passes it for the prefix. -/
theorem hypotheses_scan_append (d : List Policy)
    (l1 l2 : List ElectionResult) : ∀ offset : Nat,
    hypotheses_scan d offset (l1 ++ l2) = true →
    hypotheses_scan d offset l1 = true := by
  induction l1 with
  | nil => intro offset _; rfl
  | cons er rest ih =>
    intro offset h
    simp only [List.cons_append, hypotheses_scan, Bool.and_eq_true] at h ⊢
    exact ⟨h.1, ih _ h.2⟩

/-- The surviving population of complex_card_counter as a single filter of
the full deck population. -/
theorem complex_card_counter_decks_eq (num_total_lib num_total_fasc : Nat)
    (hard_facts hypotheses : List ElectionResult)
    (legal_follow_on_sets : List (Option (List Nat)))
    (hard_confirmed_liberals path_assumed_liberals : List PlayerID) :
    complex_card_counter_decks num_total_lib num_total_fasc hard_facts
      hypotheses legal_follow_on_sets hard_confirmed_liberals
      path_assumed_liberals =
    (generate_internal num_total_lib num_total_fasc).actual_decks.filter
      (fun d =>
        hard_facts_scan hard_confirmed_liberals d 0 hard_facts &&
        follow_on_scan legal_follow_on_sets path_assumed_liberals d 0 0
          hard_facts &&
        hypotheses_scan d 0 hypotheses) := by
  simp only [complex_card_counter_decks, hard_facted_complex_card_counter,
    List.filter_filter]
  congr 1
  funext d
  cases h1 : hard_facts_scan hard_confirmed_liberals d 0 hard_facts <;>
    cases h2 : follow_on_scan legal_follow_on_sets path_assumed_liberals d 0 0
      hard_facts <;>
    cases h3 : hypotheses_scan d 0 hypotheses <;> rfl

/-- C3: appending an additional hard fact, or an additional hypothesis, to a
complex_card_counter call never increases the returned num_checked. -/
theorem complex_card_counter_num_checked_antitone
    (num_total_lib num_total_fasc : Nat)
    (hard_facts hypotheses : List ElectionResult)
    (new_fact new_hyp : ElectionResult)
    (legal_follow_on_sets : List (Option (List Nat)))
    (hard_confirmed_liberals path_assumed_liberals : List PlayerID)
    (new_hypothesis : ElectionResult) :
    (complex_card_counter num_total_lib num_total_fasc
        (hard_facts ++ [new_fact]) hypotheses legal_follow_on_sets
        hard_confirmed_liberals path_assumed_liberals
        new_hypothesis).num_checked ≤
      (complex_card_counter num_total_lib num_total_fasc hard_facts
        hypotheses legal_follow_on_sets hard_confirmed_liberals
        path_assumed_liberals new_hypothesis).num_checked ∧
    (complex_card_counter num_total_lib num_total_fasc hard_facts
        (hypotheses ++ [new_hyp]) legal_follow_on_sets
        hard_confirmed_liberals path_assumed_liberals
        new_hypothesis).num_checked ≤
      (complex_card_counter num_total_lib num_total_fasc hard_facts
        hypotheses legal_follow_on_sets hard_confirmed_liberals
        path_assumed_liberals new_hypothesis).num_checked := by
  constructor
  · simp only [complex_card_counter, complex_card_counter_decks_eq,
      ← List.countP_eq_length_filter]
    refine List.countP_mono_left (fun d _ h => ?_)
    simp only [Bool.and_eq_true] at h ⊢
    exact ⟨⟨hard_facts_scan_append _ _ _ _ _ h.1.1,
      follow_on_scan_append _ _ _ _ _ _ _ h.1.2⟩, h.2⟩
  · simp only [complex_card_counter, complex_card_counter_decks_eq,
      ← List.countP_eq_length_filter]
    refine List.countP_mono_left (fun d _ h => ?_)
    simp only [Bool.and_eq_true] at h ⊢
    exact ⟨h.1, hypotheses_scan_append _ _ _ _ h.2⟩

/-- C2 counterexample: for the concrete elected government eg3, whose
president claimed 3 blues while a liberal policy was passed, the generated
children carry the true-claim values {1, 2, 3} = {passed_blues, +1, +2} and
not {observed, observed + 1, observed + 2} = {3, 4, 5}. -/
theorem generated_tree_observed_branching_counterexample :
    (recursively_generate_tree [ElectionResult.Election eg3]).map
        tree_claimed_blues = [1, 2, 3] ∧
      eg3.president_claimed_blues = 3 ∧
      ¬((recursively_generate_tree [ElectionResult.Election eg3]).map
          tree_claimed_blues =
        [eg3.president_claimed_blues, eg3.president_claimed_blues + 1,
          eg3.president_claimed_blues + 2]) := by
  refine ⟨by decide, by decide, by decide⟩

/-- C2 amended: in the generated (pre-filtering) tree, an Election event
branches into exactly 3 nodes whose true president-claimed-blue values are
{passed_blues, passed_blues + 1, passed_blues + 2}, where passed_blues is 1
when the passed policy is Liberal and 0 otherwise; each records the observed
claim as original_claimed_blues and continues with the remaining history.  A
TopDeck event yields exactly one pass-through node. -/
theorem generated_tree_branch_structure (er : ElectionResult)
    (rest : List ElectionResult) :
    (∀ eg : ElectedGovernment, er = ElectionResult.Election eg →
      (recursively_generate_tree (er :: rest)).map tree_claimed_blues =
        [er.passed_blues, er.passed_blues + 1, er.passed_blues + 2] ∧
      (recursively_generate_tree (er :: rest)).length = 3 ∧
      ∀ n ∈ recursively_generate_tree (er :: rest),
        n.children = recursively_generate_tree rest ∧
        n.original_claimed_blues = eg.president_claimed_blues) ∧
    (∀ (p : Policy) (cc : CardContext), er = ElectionResult.TopDeck p cc →
      recursively_generate_tree (er :: rest) =
        [TreeNode.mk (FilterResult.none 1) er.passed_blues er
          (recursively_generate_tree rest)]) := by
  constructor
  · intro eg heg
    subst heg
    refine ⟨?_, ?_, ?_⟩
    · simp [recursively_generate_tree, tree_claimed_blues,
        TreeNode.relevant_election_result, List.range_succ]
      omega
    · simp [recursively_generate_tree]
    · intro n hn
      simp only [recursively_generate_tree, List.mem_map,
        List.mem_range] at hn
      obtain ⟨x, _, hx⟩ := hn
      subst hx
      exact ⟨rfl, rfl⟩
  · intro p cc htd
    subst htd
    rfl

/-- Witness for the amended C2 statement: the Election branch instantiated
at the concrete government eg3 with an empty remaining history. -/
theorem generated_tree_branch_structure_witness :
    (recursively_generate_tree [ElectionResult.Election eg3]).length = 3 :=
  ((generated_tree_branch_structure (ElectionResult.Election eg3) []).1 eg3
    rfl).2.1

/-- C9 counterexample: in the 5-player session ps9 whose last history entry
is the elected government eg3 (chancellor seat 2) and where all 5 players
are alive, seat 2 is still rejected as chancellor — the at-most-5-alive
exception does not lift the preceding-chancellor restriction. -/
theorem chancellor_eligibility_counterexample :
    ps9.players_alive ≤ 5 ∧
      ps9.governments.getLast? =
        Option.some (ElectionResult.Election eg3) ∧
      eg3.chancellor = 2 ∧
      ps9.is_eligible_chancellor 2 = false := by
  refine ⟨by decide, by decide, by decide, by decide⟩

/-- C9 amended: after a non-empty history ending in an elected government,
a proposed chancellor equal to that government's chancellor is always
ineligible, and one equal to that government's president is ineligible
exactly when more than 5 players are alive — the at-most-5-alive exception
applies only to the preceding-president restriction; after a TopDeck entry
or an empty history every player is chancellor-eligible. -/
theorem is_eligible_chancellor_spec (ps : PlayerState) (player : PlayerID) :
    ps.is_eligible_chancellor player =
      match ps.governments.getLast? with
      | Option.none => true
      | Option.some (ElectionResult.TopDeck _ _) => true
      | Option.some (ElectionResult.Election gov) =>
        decide (gov.chancellor ≠ player) &&
          (decide (gov.president ≠ player) ||
            decide (ps.players_alive ≤ 5)) := by
  simp only [PlayerState.is_eligible_chancellor]
  cases h : ps.governments.getLast? with
  | none => rfl
  | some er =>
    cases er with
    | TopDeck p cc => rfl
    | Election gov => simp

/-- The number of k-selections of a list is (length choose k). -/
theorem combinations_length (k : Nat) : ∀ l : List α,
    (combinations l k).length = l.length.choose k := by
  induction k with
  | zero => intro l; cases l <;> rfl
  | succ k ihk =>
    intro l
    induction l with
    | nil => rfl
    | cons a rest ihl =>
      simp only [combinations, List.length_append, List.length_map, ihk, ihl,
        List.length_cons, Nat.choose_succ_succ]

/-- Every k-selection is an order-preserving sub-list of length k. -/
theorem mem_combinations (k : Nat) : ∀ (l : List α) (c : List α),
    c ∈ combinations l k → c.Sublist l ∧ c.length = k := by
  induction k with
  | zero =>
    intro l c hc
    cases l <;> simp only [combinations, List.mem_singleton] at hc <;>
      subst hc <;> exact ⟨List.nil_sublist _, rfl⟩
  | succ k ihk =>
    intro l
    induction l with
    | nil => intro c hc; simp [combinations] at hc
    | cons a rest ihl =>
      intro c hc
      simp only [combinations, List.mem_append, List.mem_map] at hc
      rcases hc with ⟨c2, hc2, rfl⟩ | hc
      · obtain ⟨hsub, hlen⟩ := ihk rest c2 hc2
        exact ⟨List.Sublist.cons₂ a hsub, by simp [hlen]⟩
      · obtain ⟨hsub, hlen⟩ := ihl c hc
        exact ⟨hsub.cons a, hlen⟩

/-- The k-selections of a duplicate-free list are pairwise distinct. -/
theorem combinations_nodup (k : Nat) : ∀ l : List α, l.Nodup →
    (combinations l k).Nodup := by
  induction k with
  | zero => intro l _; cases l <;> simp [combinations]
  | succ k ihk =>
    intro l
    induction l with
    | nil => intro _; simp [combinations]
    | cons a rest ihl =>
      intro hnd
      have hndr : rest.Nodup := (List.nodup_cons.mp hnd).2
      have hna : a ∉ rest := (List.nodup_cons.mp hnd).1
      simp only [combinations]
      refine List.Nodup.append ?_ (ihl hndr) ?_
      · exact (ihk rest hndr).map (fun c1 c2 h => by
          simpa using h)
      · intro c hc1 hc2
        simp only [List.mem_map] at hc1
        obtain ⟨c2, _, rfl⟩ := hc1
        have hsub := (mem_combinations _ _ _ hc2).1
        exact hna (hsub.subset (List.mem_cons_self a c2))

/-- Setting a fixed value at a list of indices preserves length. -/
theorem foldl_set_length (v : α) : ∀ (idxs : List Nat) (l : List α),
    (idxs.foldl (fun acc j => acc.set j v) l).length = l.length := by
  intro idxs
  induction idxs with
  | nil => intro l; rfl
  | cons j rest ih => intro l; simp [List.foldl_cons, ih, List.length_set]

/-- Element lookup after setting a fixed value at a list of indices. -/
theorem foldl_set_getElem? (v : α) : ∀ (idxs : List Nat) (l : List α)
    (i : Nat),
    (idxs.foldl (fun acc j => acc.set j v) l)[i]? =
      if i ∈ idxs ∧ i < l.length then some v else l[i]? := by
  intro idxs
  induction idxs with
  | nil => intro l i; simp
  | cons j rest ih =>
    intro l i
    simp only [List.foldl_cons]
    rw [ih, List.length_set]
    by_cases hilen : i < l.length
    · rw [List.getElem?_set]
      by_cases hir : i ∈ rest
      · simp [hir, hilen]
      · by_cases hji : j = i
        · subst hji; simp [hir, hilen]
        · have hij : ¬i = j := fun hc => hji hc.symm
          simp [hir, hji, hilen, hij]
    · have hnone : l[i]? = none := List.getElem?_eq_none (by omega)
      have hnone2 : (l.set j v)[i]? = none :=
        List.getElem?_eq_none (by rw [List.length_set]; omega)
      simp [hilen, hnone, hnone2]

/-- The seat-shift applied to fascist positions relative to the Hitler seat
is injective. -/
theorem shift_injective (h : Nat) :
    Function.Injective (fun fp => if h ≤ fp then fp + 1 else fp) := by
  intro a b hab
  by_cases ha : h ≤ a <;> by_cases hb : h ≤ b <;> simp [ha, hb] at hab <;>
    omega

/-- The role vector built for a Hitler seat and a shifted fascist-position
set is the tabulation of the obvious role function. -/
theorem build_roles_eq (t h : Nat) (s : List Nat) (hh : h < t) :
    s.foldl (fun acc i => acc.set i SecretRole.RegularFascist)
      ((List.replicate t SecretRole.Liberal).set h SecretRole.Hitler) =
    (List.range t).map (fun i =>
      if i ∈ s then SecretRole.RegularFascist
      else if i = h then SecretRole.Hitler else SecretRole.Liberal) := by
  apply List.ext_getElem?
  intro i
  rw [foldl_set_getElem?]
  simp only [List.length_set, List.length_replicate]
  by_cases hit : i < t
  · simp only [List.getElem?_set, List.getElem?_replicate,
      List.getElem?_map, List.getElem?_range hit]
    by_cases his : i ∈ s
    · simp [his, hit]
    · by_cases hih : i = h
      · subst hih; simp [his, hit, hh]
      · have hne : ¬h = i := fun hc => hih hc.symm
        simp [his, hit, hih, hne]
  · have hnone : ((List.replicate t SecretRole.Liberal).set h
        SecretRole.Hitler)[i]? = none :=
      List.getElem?_eq_none (by simp [List.length_set]; omega)
    have hnone2 : ((List.range t).map (fun i =>
        if i ∈ s then SecretRole.RegularFascist
        else if i = h then SecretRole.Hitler
        else SecretRole.Liberal))[i]? = none :=
      List.getElem?_eq_none (by simp; omega)
    simp [hit, hnone, hnone2]

/-- Counting a membership predicate over `range t` recovers the length of a
duplicate-free subset of `range t`. -/
theorem countP_mem_range (t : Nat) (s : List Nat) (hnd : s.Nodup)
    (hsub : ∀ j ∈ s, j < t) :
    (List.range t).countP (fun i => i ∈ s) = s.length := by
  rw [List.countP_eq_length_filter]
  have hperm : ((List.range t).filter (fun i => i ∈ s)).Perm s := by
    refine (List.perm_ext_iff_of_nodup
      (List.Nodup.filter _ (List.nodup_range _)) hnd).mpr ?_
    intro a
    simp only [List.mem_filter, List.mem_range, decide_eq_true_eq]
    exact ⟨fun hx => hx.2, fun hx => ⟨hsub a hx, hx⟩⟩
  exact hperm.length_eq

/-- Membership in the generated role population: every assignment arises
from a fascist-position selection and a Hitler seat. -/
theorem mem_generate_assignments_cached (t f : Nat) (ra : RoleAssignment) :
    ra ∈ generate_assignments_cached t f ↔
    ∃ c, c ∈ combinations (List.range (t - 1)) f ∧ ∃ h, h < t ∧
      ra = ((c.map (fun fp => if h ≤ fp then fp + 1 else fp)).foldl
          (fun acc i => acc.set i SecretRole.RegularFascist)
          ((List.replicate t SecretRole.Liberal).set h
            SecretRole.Hitler)).enum.map
        (fun pr => (pr.1 + 1, pr.2)) := by
  simp only [generate_assignments_cached, List.mem_map, List.mem_flatMap,
    List.mem_range]
  constructor
  · rintro ⟨p, ⟨c, hc, ⟨h, hh, rfl⟩⟩, rfl⟩
    exact ⟨c, hc, h, hh, rfl⟩
  · rintro ⟨c, hc, h, hh, rfl⟩
    exact ⟨(h, c.map (fun fp => if h ≤ fp then fp + 1 else fp)),
      ⟨c, hc, h, hh, rfl⟩, rfl⟩

/-- Positions shifted around the Hitler seat are below the table size,
distinct from the Hitler seat, pairwise increasing, and as many as the
selected fascist positions. -/
theorem shifted_positions_spec (t f h : Nat) (hh : h < t) (c : List Nat)
    (hc : c ∈ combinations (List.range (t - 1)) f) :
    (∀ j ∈ c.map (fun fp => if h ≤ fp then fp + 1 else fp), j < t ∧ j ≠ h) ∧
    (c.map (fun fp => if h ≤ fp then fp + 1 else fp)).Pairwise (· < ·) ∧
    (c.map (fun fp => if h ≤ fp then fp + 1 else fp)).length = f := by
  obtain ⟨hsub, hlen⟩ := mem_combinations _ _ _ hc
  have hmem : ∀ fp ∈ c, fp < t - 1 := fun fp hfp =>
    List.mem_range.mp (hsub.subset hfp)
  refine ⟨?_, ?_, by simpa using hlen⟩
  · intro j hj
    simp only [List.mem_map] at hj
    obtain ⟨fp, hfp, rfl⟩ := hj
    have := hmem fp hfp
    by_cases hle : h ≤ fp <;> simp [hle] <;> omega
  · have hpc : c.Pairwise (· < ·) :=
      (List.pairwise_lt_range _).sublist hsub
    rw [List.pairwise_map]
    refine hpc.imp ?_
    intro a b hab
    by_cases ha : h ≤ a <;> by_cases hb : h ≤ b <;> simp [ha, hb] <;> omega

/-- The entry-wise description of one generated assignment: seat keys are
1..T and the role column is the tabulated role function. -/
theorem gac_entry_eq (t h : Nat) (s : List Nat) (hh : h < t) :
    ((s.foldl (fun acc i => acc.set i SecretRole.RegularFascist)
        ((List.replicate t SecretRole.Liberal).set h
          SecretRole.Hitler)).enum.map
      (fun pr => (pr.1 + 1, pr.2))).map Prod.fst = List.range' 1 t ∧
    ((s.foldl (fun acc i => acc.set i SecretRole.RegularFascist)
        ((List.replicate t SecretRole.Liberal).set h
          SecretRole.Hitler)).enum.map
      (fun pr => (pr.1 + 1, pr.2))).map Prod.snd =
      (List.range t).map (fun i =>
        if i ∈ s then SecretRole.RegularFascist
        else if i = h then SecretRole.Hitler else SecretRole.Liberal) := by
  rw [build_roles_eq t h s hh]
  constructor
  · rw [List.map_map]
    have h1 : (Prod.fst ∘ fun pr : Nat × SecretRole => (pr.1 + 1, pr.2)) =
        (fun pr : Nat × SecretRole => pr.1 + 1) := rfl
    rw [h1]
    have h2 : (fun pr : Nat × SecretRole => pr.1 + 1) =
        ((fun i => i + 1) ∘ Prod.fst) := rfl
    rw [h2, ← List.map_map, List.enum_map_fst, List.length_map,
      List.length_range, List.range'_eq_map_range]
    exact List.map_congr_left (fun i _ => Nat.add_comm i 1)
  · rw [List.map_map]
    have h1 : (Prod.snd ∘ fun pr : Nat × SecretRole => (pr.1 + 1, pr.2)) =
        Prod.snd := rfl
    rw [h1, List.enum_map_snd]

/-- Role counts over the tabulated role column: one Hitler, |s| regular
fascists, and the remaining seats liberal. -/
theorem roles_column_counts (t h : Nat) (s : List Nat) (hh : h < t)
    (hs : ∀ j ∈ s, j < t ∧ j ≠ h) (hnd : s.Nodup) :
    ((List.range t).map (fun i =>
        if i ∈ s then SecretRole.RegularFascist
        else if i = h then SecretRole.Hitler
        else SecretRole.Liberal)).countP
      (fun r => r = SecretRole.Hitler) = 1 ∧
    ((List.range t).map (fun i =>
        if i ∈ s then SecretRole.RegularFascist
        else if i = h then SecretRole.Hitler
        else SecretRole.Liberal)).countP
      (fun r => r = SecretRole.RegularFascist) = s.length ∧
    ((List.range t).map (fun i =>
        if i ∈ s then SecretRole.RegularFascist
        else if i = h then SecretRole.Hitler
        else SecretRole.Liberal)).countP
      (fun r => r = SecretRole.Liberal) = t - 1 - s.length := by
  rw [List.countP_map, List.countP_map, List.countP_map]
  have hhns : h ∉ s := fun hc => (hs h hc).2 rfl
  have hcH : ∀ i ∈ List.range t,
      (((fun r => decide (r = SecretRole.Hitler)) ∘ (fun i =>
        if i ∈ s then SecretRole.RegularFascist
        else if i = h then SecretRole.Hitler
        else SecretRole.Liberal)) i = true ↔
        decide (i ∈ [h]) = true) := by
    intro i _
    by_cases his : i ∈ s
    · have hne : ¬i = h := (hs i his).2
      simp [his, hne, Function.comp]
    · by_cases hihh : i = h
      · subst hihh; simp [his, Function.comp]
      · simp [his, hihh, Function.comp]
  have hcF : ∀ i ∈ List.range t,
      (((fun r => decide (r = SecretRole.RegularFascist)) ∘ (fun i =>
        if i ∈ s then SecretRole.RegularFascist
        else if i = h then SecretRole.Hitler
        else SecretRole.Liberal)) i = true ↔ decide (i ∈ s) = true) := by
    intro i _
    by_cases his : i ∈ s
    · simp [his, Function.comp]
    · by_cases hihh : i = h
      · subst hihh; simp [his, Function.comp]
      · simp [his, hihh, Function.comp]
  have hcL : ∀ i ∈ List.range t,
      (((fun r => decide (r = SecretRole.Liberal)) ∘ (fun i =>
        if i ∈ s then SecretRole.RegularFascist
        else if i = h then SecretRole.Hitler
        else SecretRole.Liberal)) i = true ↔
        (!decide (i ∈ s ++ [h])) = true) := by
    intro i _
    by_cases his : i ∈ s
    · simp [his, Function.comp]
    · by_cases hihh : i = h
      · subst hihh; simp [his, Function.comp]
      · simp [his, hihh, Function.comp]
  have hndsh : (s ++ [h]).Nodup := by
    refine List.Nodup.append hnd (List.nodup_singleton h) ?_
    intro a ha hb
    rw [List.mem_singleton] at hb
    subst hb
    exact hhns ha
  have hone : (List.range t).countP (fun i => i ∈ [h]) = 1 := by
    have := countP_mem_range t [h] (List.nodup_singleton h)
      (by intro j hj; rw [List.mem_singleton] at hj; omega)
    simpa using this
  have hfc : (List.range t).countP (fun i => i ∈ s) = s.length :=
    countP_mem_range t s hnd (fun j hj => (hs j hj).1)
  have hsh : (List.range t).countP (fun i => i ∈ s ++ [h]) =
      s.length + 1 := by
    have := countP_mem_range t (s ++ [h]) hndsh (by
      intro j hj
      rw [List.mem_append, List.mem_singleton] at hj
      rcases hj with hj | hj
      · exact (hs j hj).1
      · omega)
    simpa using this
  refine ⟨?_, ?_, ?_⟩
  · rw [List.countP_congr hcH]; exact hone
  · rw [List.countP_congr hcF]; exact hfc
  · rw [List.countP_congr hcL]
    have htotal := List.length_eq_countP_add_countP
      (fun i => decide (i ∈ s ++ [h])) (List.range t)
    rw [List.length_range, hsh] at htotal
    have : (List.range t).countP (fun i => !decide (i ∈ s ++ [h])) =
        (List.range t).countP
          (fun a => decide ¬(decide (a ∈ s ++ [h]) = true)) := by
      refine List.countP_congr (fun a _ => ?_)
      by_cases ha : a ∈ s ++ [h] <;> simp [ha]
    omega

/-- C7: for every table size 5 ≤ T ≤ 10 and fascist count F < T / 2 the
generated role population has exactly C(T-1, F) * T pairwise distinct
assignments, each keyed by seats 1..T with exactly one Hitler, exactly F
regular fascists and all remaining seats liberal. -/
theorem generate_assignments_spec (t f : Nat) (ht5 : 5 ≤ t) (ht10 : t ≤ 10)
    (hf : f < t / 2) :
    (generate_assignments_cached t f).length = (t - 1).choose f * t ∧
    (generate_assignments_cached t f).Nodup ∧
    ∀ ra ∈ generate_assignments_cached t f,
      ra.map Prod.fst = List.range' 1 t ∧
      (ra.map Prod.snd).countP (fun r => r = SecretRole.Hitler) = 1 ∧
      (ra.map Prod.snd).countP
        (fun r => r = SecretRole.RegularFascist) = f ∧
      (ra.map Prod.snd).countP (fun r => r = SecretRole.Liberal) =
        t - 1 - f := by
  refine ⟨?_, ?_, ?_⟩
  · simp only [generate_assignments_cached, List.length_map,
      List.length_flatMap]
    have hconst : List.map (List.length ∘ fun fasc_pos =>
        (List.range t).map (fun hitler_pos => (hitler_pos,
          fasc_pos.map (fun fp =>
            if hitler_pos ≤ fp then fp + 1 else fp))))
        (combinations (List.range (t - 1)) f) =
        List.map (fun _ => t) (combinations (List.range (t - 1)) f) :=
      List.map_congr_left (fun c _ => by
        simp [Function.comp, List.length_map, List.length_range])
    rw [hconst, List.map_const', List.sum_replicate, smul_eq_mul,
      combinations_length, List.length_range]
  · rw [generate_assignments_cached]
    refine List.Nodup.map_on ?_ ?_
    · intro p1 hp1 p2 hp2 heq
      simp only [List.mem_flatMap, List.mem_map, List.mem_range] at hp1 hp2
      obtain ⟨c1, hc1, h1, hh1, rfl⟩ := hp1
      obtain ⟨c2, hc2, h2, hh2, rfl⟩ := hp2
      obtain ⟨hj1, hplt1, hlen1⟩ := shifted_positions_spec t f h1 hh1 c1 hc1
      obtain ⟨hj2, hplt2, hlen2⟩ := shifted_positions_spec t f h2 hh2 c2 hc2
      set s1 := c1.map (fun fp => if h1 ≤ fp then fp + 1 else fp) with hs1def
      set s2 := c2.map (fun fp => if h2 ≤ fp then fp + 1 else fp) with hs2def
      have e1 := (gac_entry_eq t h1 s1 hh1).2
      have e2 := (gac_entry_eq t h2 s2 hh2).2
      have hcols : (List.range t).map (fun i =>
          if i ∈ s1 then SecretRole.RegularFascist
          else if i = h1 then SecretRole.Hitler
          else SecretRole.Liberal) =
          (List.range t).map (fun i =>
          if i ∈ s2 then SecretRole.RegularFascist
          else if i = h2 then SecretRole.Hitler
          else SecretRole.Liberal) := by
        rw [← e1, ← e2]
        exact congrArg (List.map Prod.snd) heq
      have hpt : ∀ i, i < t →
          (if i ∈ s1 then SecretRole.RegularFascist
           else if i = h1 then SecretRole.Hitler
           else SecretRole.Liberal) =
          (if i ∈ s2 then SecretRole.RegularFascist
           else if i = h2 then SecretRole.Hitler
           else SecretRole.Liberal) := by
        intro i hi
        have hcongr := congrArg (fun l => l[i]?) hcols
        simpa [List.getElem?_map, List.getElem?_range, hi] using hcongr
      have hh1ns : h1 ∉ s1 := fun hc => (hj1 _ hc).2 rfl
      have hh2ns : h2 ∉ s2 := fun hc => (hj2 _ hc).2 rfl
      have hrole2 : (if h1 ∈ s2 then SecretRole.RegularFascist
          else if h1 = h2 then SecretRole.Hitler
          else SecretRole.Liberal) = SecretRole.Hitler := by
        rw [← hpt h1 hh1]
        simp [hh1ns]
      have hh12 : h1 = h2 := by
        by_cases h1s2 : h1 ∈ s2
        · simp [h1s2] at hrole2
        · by_cases heqh : h1 = h2
          · exact heqh
          · simp [h1s2, heqh] at hrole2
      subst hh12
      have hmemiff : ∀ j, j ∈ s1 ↔ j ∈ s2 := by
        intro j
        constructor
        · intro hj
          have hjt := (hj1 j hj).1
          have hr := hpt j hjt
          rw [if_pos hj] at hr
          by_contra hns
          rw [if_neg hns, if_neg (hj1 j hj).2] at hr
          exact SecretRole.noConfusion hr
        · intro hj
          have hjt := (hj2 j hj).1
          have hr := (hpt j hjt).symm
          rw [if_pos hj] at hr
          by_contra hns
          rw [if_neg hns, if_neg (hj2 j hj).2] at hr
          exact SecretRole.noConfusion hr
      have hnd1 : s1.Nodup := hplt1.imp (fun hab => Nat.ne_of_lt hab)
      have hnd2 : s2.Nodup := hplt2.imp (fun hab => Nat.ne_of_lt hab)
      have hseq : s1 = s2 :=
        List.eq_of_perm_of_sorted
          ((List.perm_ext_iff_of_nodup hnd1 hnd2).mpr hmemiff)
          (hplt1.imp (fun hab => Nat.le_of_lt hab))
          (hplt2.imp (fun hab => Nat.le_of_lt hab))
      exact congrArg (Prod.mk h1) hseq
    · refine List.nodup_flatMap.mpr ⟨?_, ?_⟩
      · intro c _
        refine List.Nodup.map_on ?_ (List.nodup_range t)
        intro h1 _ h2 _ heq
        exact congrArg Prod.fst heq
      · have hcnd := combinations_nodup f _ (List.nodup_range (t - 1))
        refine hcnd.imp ?_
        intro c1 c2 hne p hp1 hp2
        simp only [List.mem_map, List.mem_range] at hp1 hp2
        obtain ⟨h1, hh1, rfl⟩ := hp1
        obtain ⟨h2, hh2, heq⟩ := hp2
        have hhe : h2 = h1 := congrArg Prod.fst heq
        subst hhe
        have hse := congrArg Prod.snd heq
        exact hne (List.map_injective_iff.mpr (shift_injective h2)
          hse).symm
  · intro ra hra
    obtain ⟨c, hc, h, hh, rfl⟩ :=
      (mem_generate_assignments_cached t f _).mp hra
    obtain ⟨hj, hplt, hlen⟩ := shifted_positions_spec t f h hh c hc
    set s := c.map (fun fp => if h ≤ fp then fp + 1 else fp) with hsdef
    have hnd : s.Nodup := hplt.imp (fun hab => Nat.ne_of_lt hab)
    obtain ⟨hkeys, hsnd⟩ := gac_entry_eq t h s hh
    obtain ⟨hH, hF, hL⟩ := roles_column_counts t h s hh hj hnd
    rw [hlen] at hF hL
    exact ⟨hkeys, by rw [hsnd]; exact hH, by rw [hsnd]; exact hF,
      by rw [hsnd]; exact hL⟩

/-- Witness for C7: the standard 5-player, one-regular-fascist table has a
population of C(4, 1) * 5 = 20 assignments. -/
theorem generate_assignments_spec_witness :
    (generate_assignments_cached 5 1).length = Nat.choose 4 1 * 5 :=
  (generate_assignments_spec 5 1 (by norm_num) (by norm_num)
    (by norm_num)).1

/-- Flattening the runs of a list recovers the list. -/
theorem runs_by_join (eqk : α → α → Bool) : ∀ l : List α,
    ((runs_by eqk l).map (fun g => g.1 :: g.2)).flatten = l := by
  intro l
  induction l with
  | nil => rfl
  | cons a rest ih =>
    simp only [runs_by]
    cases hr : runs_by eqk rest with
    | nil =>
      rw [hr] at ih
      simp only [List.map_nil, List.flatten_nil] at ih
      simp [← ih]
    | cons g gs =>
      rw [hr] at ih
      obtain ⟨b, gr⟩ := g
      by_cases hab : eqk a b <;> simp [hab] <;> simp only [List.map_cons,
        List.flatten_cons] at ih ⊢ <;> simp [← ih]

/-- The sum of run sizes is the list length. -/
theorem runs_by_sum_sizes (eqk : α → α → Bool) (l : List α) :
    ((runs_by eqk l).map (fun g => g.2.length + 1)).sum = l.length := by
  conv_rhs => rw [← runs_by_join eqk l]
  rw [List.length_flatten, List.map_map]
  rfl

/-- Every run head is an element of the original list. -/
theorem runs_by_head_mem (eqk : α → α → Bool) (l : List α)
    (g : α × List α) (hg : g ∈ runs_by eqk l) : g.1 ∈ l := by
  rw [← runs_by_join eqk l]
  rw [List.mem_flatten]
  exact ⟨g.1 :: g.2, List.mem_map_of_mem _ hg, List.mem_cons_self _ _⟩

/-- In a list sorted by a numeric key, every run after the first carries a
strictly larger key than the first run's head. -/
theorem runs_by_later_keys_gt (key : α → Nat) : ∀ l : List α,
    List.Pairwise (fun x y => key x ≤ key y) l →
    ∀ b gr gs, runs_by (fun x y => key x == key y) l = (b, gr) :: gs →
    ∀ g2 ∈ gs, key b < key g2.1 := by
  intro l
  induction l with
  | nil => intro _ b gr gs h; simp [runs_by] at h
  | cons a rest ih =>
    intro hsorted b gr gs hruns g2 hg2
    have hsr : List.Pairwise (fun x y => key x ≤ key y) rest :=
      hsorted.tail
    simp only [runs_by] at hruns
    cases hr : runs_by (fun x y => key x == key y) rest with
    | nil =>
      rw [hr] at hruns
      dsimp only at hruns
      obtain ⟨_, hgs⟩ := List.cons_eq_cons.mp hruns
      rw [← hgs] at hg2
      simp at hg2
    | cons g1 gs1 =>
      rw [hr] at hruns
      obtain ⟨b1, gr1⟩ := g1
      dsimp only at hruns
      by_cases hab : key a == key b1
      · rw [if_pos hab] at hruns
        obtain ⟨hpair, hgs⟩ := List.cons_eq_cons.mp hruns
        have hba : a = b := congrArg Prod.fst hpair
        have hkab : key a = key b1 := eq_of_beq hab
        rw [← hgs] at hg2
        have hlt := ih hsr b1 gr1 gs1 hr g2 hg2
        rw [← hba]
        omega
      · rw [if_neg hab] at hruns
        obtain ⟨hpair, hgs⟩ := List.cons_eq_cons.mp hruns
        have hba : a = b := congrArg Prod.fst hpair
        have hbmem : b1 ∈ rest := runs_by_head_mem _ rest (b1, gr1) (by
          rw [hr]; exact List.mem_cons_self _ _)
        have hableb : key a ≤ key b1 := by
          rcases List.pairwise_cons.mp hsorted with ⟨hall, _⟩
          exact hall b1 hbmem
        have haltb : key a < key b1 := by
          have : ¬key a = key b1 := fun hc => hab (by simp [hc])
          omega
        rw [← hgs] at hg2
        rw [← hba]
        rcases List.mem_cons.mp hg2 with hg2h | hg2t
        · rw [hg2h]; exact haltb
        · have := ih hsr b1 gr1 gs1 hr g2 hg2t
          omega

/-- In a list sorted by a numeric key, a run of the key-grouping contains
every occurrence of its head key: the run size is the key's count. -/
theorem runs_by_size_eq_countP (key : α → Nat) : ∀ l : List α,
    List.Pairwise (fun x y => key x ≤ key y) l →
    ∀ g ∈ runs_by (fun x y => key x == key y) l,
    g.2.length + 1 = l.countP (fun x => key x == key g.1) := by
  intro l
  induction l with
  | nil => intro _ g hg; simp [runs_by] at hg
  | cons a rest ih =>
    intro hsorted g hg
    have hsr : List.Pairwise (fun x y => key x ≤ key y) rest := hsorted.tail
    simp only [runs_by] at hg
    cases hr : runs_by (fun x y => key x == key y) rest with
    | nil =>
      rw [hr] at hg
      have hrest : rest = [] := by
        have := runs_by_join (fun x y => key x == key y) rest
        rw [hr] at this
        simpa using this.symm
      subst hrest
      dsimp only at hg
      simp only [List.mem_singleton] at hg
      subst hg
      simp [List.countP_cons]
    | cons g1 gs1 =>
      rw [hr] at hg
      obtain ⟨b1, gr1⟩ := g1
      dsimp only at hg
      have hbmem : b1 ∈ rest := runs_by_head_mem _ rest (b1, gr1) (by
        rw [hr]; exact List.mem_cons_self _ _)
      by_cases hab : key a == key b1
      · rw [if_pos hab] at hg
        have hkab : key a = key b1 := eq_of_beq hab
        rcases List.mem_cons.mp hg with hgh | hgt
        · subst hgh
          have hhead := ih hsr (b1, gr1) (by
            rw [hr]; exact List.mem_cons_self _ _)
          simp only at hhead ⊢
          rw [List.countP_cons]
          have hsame : rest.countP (fun x => key x == key a) =
              rest.countP (fun x => key x == key b1) := by
            refine List.countP_congr (fun x _ => ?_)
            constructor
            · intro hx
              have hxa : key x = key a := eq_of_beq hx
              simp [hxa, hkab]
            · intro hx
              have hxb : key x = key b1 := eq_of_beq hx
              simp [hxb, ← hkab]
          have hrefl : (key a == key a) = true := by simp
          rw [hrefl, hsame]
          simp only [List.length_cons]
          norm_num
          omega
        · have hlater := runs_by_later_keys_gt key rest hsr b1 gr1 gs1 hr
            g hgt
          have hkg := ih hsr g (by rw [hr]; exact List.mem_cons_of_mem _ hgt)
          rw [List.countP_cons]
          have hne : (key a == key g.1) = false := by
            rw [beq_eq_false_iff_ne]
            intro hc
            omega
          rw [hne]
          simp only [Bool.false_eq_true, if_false]
          omega
      · rw [if_neg hab] at hg
        have hableb : key a ≤ key b1 := by
          rcases List.pairwise_cons.mp hsorted with ⟨hall, _⟩
          exact hall b1 hbmem
        have haltb : key a < key b1 := by
          have : ¬key a = key b1 := fun hc => hab (by simp [hc])
          omega
        have hblex : ∀ x ∈ rest, key b1 ≤ key x := by
          have hrestjoin := runs_by_join (fun x y => key x == key y) rest
          rw [hr] at hrestjoin
          have hshape : rest = (b1 :: gr1) ++
              (gs1.map (fun g => g.1 :: g.2)).flatten := by
            simpa using hrestjoin.symm
          intro x hx
          rw [hshape] at hx hsr
          rcases List.mem_cons.mp hx with hxh | hxt
          · rw [hxh]
          · exact (List.pairwise_cons.mp hsr).1 x hxt
        rcases List.mem_cons.mp hg with hgh | hgt
        · subst hgh
          simp only [List.length_nil, List.countP_cons]
          have hz : rest.countP (fun x => key x == key a) = 0 := by
            rw [List.countP_eq_zero]
            intro x hx hc
            have hxa : key x = key a := eq_of_beq hc
            have := hblex x hx
            omega
          have hrefl : (key a == key a) = true := by simp
          rw [hrefl, hz]
          simp
        · rcases List.mem_cons.mp hgt with hgh2 | hgt2
          · subst hgh2
            have hkg := ih hsr (b1, gr1) (by
              rw [hr]; exact List.mem_cons_self _ _)
            simp only at hkg ⊢
            rw [List.countP_cons]
            have hne : (key a == key b1) = false := by
              rw [beq_eq_false_iff_ne]
              intro hc
              omega
            rw [hne]
            simp only [Bool.false_eq_true, if_false]
            omega
          · have hlater := runs_by_later_keys_gt key rest hsr b1 gr1 gs1 hr
              g hgt2
            have hkg := ih hsr g (by
              rw [hr]; exact List.mem_cons_of_mem _ hgt2)
            rw [List.countP_cons]
            have hne : (key a == key g.1) = false := by
              rw [beq_eq_false_iff_ne]
              intro hc
              omega
            rw [hne]
            simp only [Bool.false_eq_true, if_false]
            omega

/-- Counting over a flat-mapped list is the sum of the per-source counts. -/
theorem countP_flatMap (p : β → Bool) (f : α → List β) (l : List α) :
    (l.flatMap f).countP p = (l.map (fun a => (f a).countP p)).sum := by
  induction l with
  | nil => rfl
  | cons a rest ih => simp [List.flatMap_cons, List.countP_append, ih]

/-- Every generated role assignment is keyed by seats 1..T. -/
theorem gac_keys (t f : Nat) (ra : RoleAssignment)
    (hra : ra ∈ generate_assignments_cached t f) :
    ra.map Prod.fst = List.range' 1 t := by
  obtain ⟨c, hc, h, hh, rfl⟩ := (mem_generate_assignments_cached t f _).mp hra
  exact (gac_entry_eq t h _ hh).1

/-- An assignment keyed by seats 1..T contains a seat key exactly once. -/
theorem assignment_countP_key (t : Nat) (ra : RoleAssignment) (pid : PlayerID)
    (hkeys : ra.map Prod.fst = List.range' 1 t) (hpid : pid ∈ List.range' 1 t) :
    ra.countP (fun pr => pr.1 == pid) = 1 := by
  have h1 : ra.countP (fun pr => pr.1 == pid) =
      (ra.map Prod.fst).countP (fun k => k == pid) := by
    rw [List.countP_map]; rfl
  rw [h1, hkeys]
  have : (List.range' 1 t).countP (fun k => k == pid) =
      List.count pid (List.range' 1 t) := rfl
  rw [this]
  exact List.count_eq_one_of_mem (List.nodup_range' 1 t) hpid

/-- C4: every successfully produced histogram entry conserves counts — the
per-role matching counts sum to the per-player num_checked, every stored
num_checked equals it, and it equals the size of the filtered population. -/
theorem filtered_histogramm_conservation (flags : Bool × Bool)
    (ps : PlayerState) (temp : List Information)
    (h : List (PlayerID × (List (SecretRole × FilterResult) × Nat)))
    (hok : filtered_histogramm flags ps temp = Except.ok h) :
    ∀ e ∈ h,
      (e.2.1.map (fun rc => rc.2.num_matching)).sum = e.2.2 ∧
      (∀ rc ∈ e.2.1, rc.2.num_checked = e.2.2) ∧
      e.2.2 = (ps.current_roles.filter
        (assignment_kept ps flags.1 flags.2 temp)).length := by
  cases hfa : filter_assigned_roles flags ps temp with
  | error err =>
    rw [filtered_histogramm, hfa] at hok
    exact Except.noConfusion hok
  | ok filtered =>
    have hfiltered : filtered = ps.current_roles.filter
        (assignment_kept ps flags.1 flags.2 temp) := by
      rw [filter_assigned_roles, filter_assigned_roles_inconvenient] at hfa
      by_cases hemp : (ps.current_roles.filter (assignment_kept ps flags.1
          flags.2 temp)).isEmpty
      · rw [if_pos hemp] at hfa
        exact absurd hfa (by simp)
      · rw [if_neg hemp] at hfa
        cases hfa
        rfl
    rw [filtered_histogramm, hfa] at hok
    have hok2 : (runs_by (fun a b => a.1 == b.1)
        (List.insertionSort (fun a b => a.1 ≤ b.1)
          (filtered.flatMap (fun ra => ra)))).map (fun grp =>
        (grp.1.1,
          (((runs_by (fun a b => a == b)
              (List.insertionSort
                (fun a b : SecretRole => a.to_index ≤ b.to_index)
                ((grp.1 :: grp.2).map (fun pr => pr.2)))).map (fun rgrp =>
            (rgrp.1, rgrp.2.length + 1))).map (fun rc =>
              (rc.1, FilterResult.mk rc.2
                ((((runs_by (fun a b => a == b)
                  (List.insertionSort
                    (fun a b : SecretRole => a.to_index ≤ b.to_index)
                    ((grp.1 :: grp.2).map (fun pr => pr.2)))).map (fun rgrp =>
                  (rgrp.1, rgrp.2.length + 1))).map (fun rc => rc.2)).sum))),
            (((runs_by (fun a b => a == b)
              (List.insertionSort
                (fun a b : SecretRole => a.to_index ≤ b.to_index)
                ((grp.1 :: grp.2).map (fun pr => pr.2)))).map (fun rgrp =>
              (rgrp.1, rgrp.2.length + 1))).map (fun rc => rc.2)).sum))) =
        h := by
      exact Except.ok.inj hok
    intro e he
    rw [← hok2] at he
    rw [List.mem_map] at he
    obtain ⟨grp, hgrp, rfl⟩ := he
    set pairs := List.insertionSort (fun a b => a.1 ≤ b.1)
      (filtered.flatMap (fun ra => ra)) with hpairs
    set roles := List.insertionSort
      (fun a b : SecretRole => a.to_index ≤ b.to_index)
      ((grp.1 :: grp.2).map (fun pr => pr.2)) with hroles
    set counted := (runs_by (fun a b => a == b) roles).map (fun rgrp =>
      (rgrp.1, rgrp.2.length + 1)) with hcounted
    set total := (counted.map (fun rc => rc.2)).sum with htotal
    refine ⟨?_, ?_, ?_⟩
    · simp only [List.map_map]
      rfl
    · intro rc hrc
      simp only [List.mem_map] at hrc
      obtain ⟨x, _, rfl⟩ := hrc
      rfl
    · have htot_roles : total = roles.length := by
        rw [htotal, hcounted, List.map_map]
        exact runs_by_sum_sizes (fun a b => a == b) roles
      have hroles_len : roles.length = grp.2.length + 1 := by
        rw [hroles]
        rw [(List.perm_insertionSort _ _).length_eq]
        simp
      have hrun_count : grp.2.length + 1 =
          pairs.countP (fun x => x.1 == grp.1.1) := by
        have hsorted : List.Pairwise
            (fun x y : PlayerID × SecretRole => x.1 ≤ y.1) pairs :=
          List.sorted_insertionSort
            (fun a b : PlayerID × SecretRole => a.1 ≤ b.1)
            (filtered.flatMap (fun ra => ra))
        exact runs_by_size_eq_countP (fun pr : PlayerID × SecretRole => pr.1)
          pairs hsorted grp hgrp
      have hperm : pairs.Perm (filtered.flatMap (fun ra => ra)) :=
        List.perm_insertionSort _ _
      have hcount_flat : pairs.countP (fun x => x.1 == grp.1.1) =
          (filtered.flatMap (fun ra => ra)).countP
            (fun x => x.1 == grp.1.1) :=
        hperm.countP_eq _
      have hpid_mem : grp.1.1 ∈ List.range' 1
          ps.table_configuration.table_size := by
        have hmem1 : grp.1 ∈ pairs := runs_by_head_mem _ _ _ hgrp
        have hmem2 : grp.1 ∈ filtered.flatMap (fun ra => ra) :=
          hperm.subset hmem1
        rw [List.mem_flatMap] at hmem2
        obtain ⟨ra, hra, hpr⟩ := hmem2
        have hrag : ra ∈ generate_assignments_cached
            ps.table_configuration.table_size
            ps.table_configuration.num_regular_fascists := by
          rw [hfiltered] at hra
          exact List.mem_of_mem_filter hra
        rw [← gac_keys _ _ ra hrag]
        exact List.mem_map_of_mem Prod.fst hpr
      have hcount_each : ∀ ra ∈ filtered,
          ra.countP (fun x => x.1 == grp.1.1) = 1 := by
        intro ra hra
        have hrag : ra ∈ generate_assignments_cached
            ps.table_configuration.table_size
            ps.table_configuration.num_regular_fascists := by
          rw [hfiltered] at hra
          exact List.mem_of_mem_filter hra
        exact assignment_countP_key _ ra _ (gac_keys _ _ ra hrag) hpid_mem
      have hflat_len : (filtered.flatMap (fun ra => ra)).countP
          (fun x => x.1 == grp.1.1) = filtered.length := by
        rw [countP_flatMap]
        rw [List.map_congr_left hcount_each]
        simp [List.map_const']
      simp only
      rw [htot_roles, hroles_len, hrun_count, hcount_flat, hflat_len,
        hfiltered]

/-- Witness for C4: the tiny two-seat session's histogram entry for seat 1
conserves counts against the filtered population of size 2. -/
theorem filtered_histogramm_conservation_witness :
    (([((SecretRole.Liberal : SecretRole), FilterResult.mk 1 2),
        (SecretRole.Hitler, FilterResult.mk 1 2)].map
      (fun rc => rc.2.num_matching)).sum = 2) ∧
    2 = ((ps2.current_roles.filter
      (assignment_kept ps2 true true [])).length) := by
  have happ := filtered_histogramm_conservation (true, true) ps2 []
    [(1, ([(SecretRole.Liberal, FilterResult.mk 1 2),
        (SecretRole.Hitler, FilterResult.mk 1 2)], 2)),
     (2, ([(SecretRole.Liberal, FilterResult.mk 1 2),
        (SecretRole.Hitler, FilterResult.mk 1 2)], 2))]
    (by decide)
    (1, ([(SecretRole.Liberal, FilterResult.mk 1 2),
        (SecretRole.Hitler, FilterResult.mk 1 2)], 2))
    (by decide)
  exact ⟨happ.1, happ.2.2⟩

/-- A successful effectful map over `Except` means every element mapped
successfully. -/
theorem mapM_ok_forall {ε β : Type} (f : α → Except ε β) (l : List α)
    (v : List β) (h : l.mapM f = Except.ok v) :
    ∀ x ∈ l, ∃ b, f x = Except.ok b := by
  rw [← List.mapM'_eq_mapM] at h
  induction l generalizing v with
  | nil => intro x hx; simp at hx
  | cons a rest ih =>
    intro x hx
    simp only [List.mapM'] at h
    cases hfa : f a with
    | error e => rw [hfa] at h; exact Except.noConfusion h
    | ok b =>
      rw [hfa] at h
      cases hrest : List.mapM' f rest with
      | error e => rw [hrest] at h; exact Except.noConfusion h
      | ok vs =>
        rcases List.mem_cons.mp hx with rfl | hxr
        · exact ⟨b, hfa⟩
        · exact ih vs hrest x hxr

/-- Lookup misses every association list whose keys avoid the key. -/
theorem lookup_eq_none_of_not_mem_keys (ra : RoleAssignment) (p : PlayerID)
    (hp : p ∉ ra.map Prod.fst) : ra.lookup p = Option.none := by
  induction ra with
  | nil => rfl
  | cons pr rest ih =>
    simp only [List.map_cons, List.mem_cons] at hp
    push_neg at hp
    have hne : (p == pr.1) = false := by
      rw [beq_eq_false_iff_ne]
      exact hp.1
    simp only [List.lookup, hne]
    exact ih hp.2

/-- C5: role filtering returns the LogicalInconsistency error exactly when
no assignment in the population satisfies the validity predicate over the
collected facts under the given relaxation settings; otherwise it returns
exactly the non-empty satisfying subset. -/
theorem filter_assigned_roles_inconvenient_spec (ps : PlayerState)
    (allow_fascist_fascist_conflict allow_aggressive_hitler : Bool)
    (temp : List Information) :
    (filter_assigned_roles_inconvenient ps allow_fascist_fascist_conflict
        allow_aggressive_hitler temp =
        Except.error Error.LogicalInconsistency ↔
      ps.current_roles.filter (fun roles =>
        valid_role_assignments roles (ps.collect_information ++ temp)
          (!allow_aggressive_hitler) (!allow_fascist_fascist_conflict) =
          Except.ok true) = []) ∧
    (∀ l, filter_assigned_roles_inconvenient ps
        allow_fascist_fascist_conflict allow_aggressive_hitler temp =
        Except.ok l →
      l ≠ [] ∧ l = ps.current_roles.filter (fun roles =>
        valid_role_assignments roles (ps.collect_information ++ temp)
          (!allow_aggressive_hitler) (!allow_fascist_fascist_conflict) =
          Except.ok true)) := by
  have hcong : ps.current_roles.filter (assignment_kept ps
      allow_fascist_fascist_conflict allow_aggressive_hitler temp) =
      ps.current_roles.filter (fun roles =>
        valid_role_assignments roles (ps.collect_information ++ temp)
          (!allow_aggressive_hitler) (!allow_fascist_fascist_conflict) =
          Except.ok true) := by
    refine List.filter_congr (fun roles _ => ?_)
    rw [assignment_kept]
    cases hv : valid_role_assignments roles
        (ps.collect_information ++ temp) (!allow_aggressive_hitler)
        (!allow_fascist_fascist_conflict) with
    | ok b => cases b <;> simp [hv]
    | error e => simp [hv]
  rw [filter_assigned_roles_inconvenient, hcong]
  constructor
  · by_cases hemp : (ps.current_roles.filter (fun roles =>
        valid_role_assignments roles (ps.collect_information ++ temp)
          (!allow_aggressive_hitler) (!allow_fascist_fascist_conflict) =
          Except.ok true)).isEmpty
    · rw [if_pos hemp]
      simp only [List.isEmpty_iff] at hemp
      simp [hemp]
    · rw [if_neg hemp]
      simp only [List.isEmpty_iff] at hemp
      constructor
      · intro hc; exact Except.noConfusion hc
      · intro hc; exact absurd hc hemp
  · intro l hl
    by_cases hemp : (ps.current_roles.filter (fun roles =>
        valid_role_assignments roles (ps.collect_information ++ temp)
          (!allow_aggressive_hitler) (!allow_fascist_fascist_conflict) =
          Except.ok true)).isEmpty
    · rw [if_pos hemp] at hl
      exact Except.noConfusion hl
    · rw [if_neg hemp] at hl
      simp only [List.isEmpty_iff] at hemp
      cases hl
      exact ⟨hemp, rfl⟩

/-- Witness for C5: on the fresh tiny session with no facts, filtering
returns the full two-assignment population. -/
theorem filter_assigned_roles_inconvenient_spec_witness :
    [[(1, SecretRole.Hitler), (2, SecretRole.Liberal)],
      [(1, SecretRole.Liberal), (2, SecretRole.Hitler)]] ≠
      ([] : List RoleAssignment) ∧
    [[(1, SecretRole.Hitler), (2, SecretRole.Liberal)],
      [(1, SecretRole.Liberal), (2, SecretRole.Hitler)]] =
      ps2.current_roles.filter (fun roles =>
        valid_role_assignments roles (ps2.collect_information ++ [])
          (!false) (!false) = Except.ok true) :=
  (filter_assigned_roles_inconvenient_spec ps2 false false []).2
    [[(1, SecretRole.Hitler), (2, SecretRole.Liberal)],
      [(1, SecretRole.Liberal), (2, SecretRole.Hitler)]] (by decide)

/-- C6 counterexample: filtering the fresh 5-player session with a hard
fact about the non-existent seat 6 silently drops every assignment and
surfaces LogicalInconsistency — not the BadPlayerID error the claim
requires. -/
theorem bad_player_id_fact_counterexample :
    filter_assigned_roles_inconvenient ps5 false false
        [Information.HardFact 6 SecretRole.Liberal] =
      Except.error Error.LogicalInconsistency ∧
    Error.LogicalInconsistency ≠ Error.BadPlayerID 6 :=
  ⟨by decide, by decide⟩

/-- C6 amended: a fact referencing a player ID outside the population's
seat range makes every assignment fail validation silently (the BadPlayerID
error is swallowed by unwrap_or(false) rather than surfaced), so the
filtering operation reports LogicalInconsistency. -/
theorem bad_player_id_fact_silently_excludes (ps : PlayerState)
    (allow_fascist_fascist_conflict allow_aggressive_hitler : Bool)
    (temp : List Information) (p : PlayerID) (r : SecretRole)
    (hp : p ∉ List.range' 1 ps.table_configuration.table_size)
    (hmem : Information.HardFact p r ∈ temp) :
    filter_assigned_roles_inconvenient ps allow_fascist_fascist_conflict
      allow_aggressive_hitler temp =
      Except.error Error.LogicalInconsistency := by
  have hkept : ∀ roles ∈ ps.current_roles, assignment_kept ps
      allow_fascist_fascist_conflict allow_aggressive_hitler temp roles =
      false := by
    intro roles hroles
    rw [assignment_kept]
    cases hv : valid_role_assignments roles
        (ps.collect_information ++ temp) (!allow_aggressive_hitler)
        (!allow_fascist_fascist_conflict) with
    | error e => rfl
    | ok b =>
      exfalso
      rw [valid_role_assignments] at hv
      cases hm : (ps.collect_information ++ temp).mapM (fun i => do
          let u ← universal_deducable_information roles i
          let h ← if (!allow_aggressive_hitler) then
              no_aggressive_hitler_filter roles i
            else Except.ok true
          let c ← if (!allow_fascist_fascist_conflict) then
              no_fascist_fascist_conflict_filter roles i
            else Except.ok true
          Except.ok (u && h && c)) with
      | error e => rw [hm] at hv; exact Except.noConfusion hv
      | ok vb =>
        have hfact := mapM_ok_forall _ _ _ hm
          (Information.HardFact p r)
          (List.mem_append.mpr (Or.inr hmem))
        obtain ⟨b2, hb2⟩ := hfact
        have hlk : roles.lookup p = Option.none := by
          refine lookup_eq_none_of_not_mem_keys roles p ?_
          rw [gac_keys _ _ roles hroles]
          exact hp
        rw [universal_deducable_information] at hb2
        simp only [lp, lookup_role, hlk] at hb2
        exact Except.noConfusion hb2
  rw [filter_assigned_roles_inconvenient]
  have hemp : ps.current_roles.filter (assignment_kept ps
      allow_fascist_fascist_conflict allow_aggressive_hitler temp) = [] := by
    rw [List.filter_eq_nil_iff]
    intro roles hroles
    rw [hkept roles hroles]
    exact Bool.false_ne_true
  rw [hemp]
  rfl

/-- Witness for the amended C6 statement: the fresh 5-player session with a
hard fact about seat 6. -/
theorem bad_player_id_fact_silently_excludes_witness :
    filter_assigned_roles_inconvenient ps5 false false
        [Information.HardFact 6 SecretRole.RegularFascist] =
      Except.error Error.LogicalInconsistency :=
  bad_player_id_fact_silently_excludes ps5 false false
    [Information.HardFact 6 SecretRole.RegularFascist] 6
    SecretRole.RegularFascist (by decide) (by decide)

/-- Taking zero election results gives offset zero. -/
theorem drawn_offset_zero (ers : List ElectionResult) :
    drawn_offset ers 0 = 0 := rfl

/-- The offset after j+1 results of a non-empty shuffle. -/
theorem drawn_offset_cons_succ (er : ElectionResult)
    (rest : List ElectionResult) (j : Nat) :
    drawn_offset (er :: rest) (j + 1) =
      er.cards_total_drawn_discarded.1 + drawn_offset rest j := rfl

/-- The offset after d+1 results is the offset after d results plus the
d-th result's draw count. -/
theorem drawn_offset_succ (ers : List ElectionResult) (er : ElectionResult)
    (d : Nat) (hd : ers[d]? = Option.some er) :
    drawn_offset ers (d + 1) =
      drawn_offset ers d + er.cards_total_drawn_discarded.1 := by
  induction ers generalizing d with
  | nil => simp at hd
  | cons e0 rest ih =>
    cases d with
    | zero =>
      simp only [List.getElem?_cons_zero, Option.some.injEq] at hd
      subst hd
      simp [drawn_offset_cons_succ, drawn_offset_zero]
    | succ d2 =>
      simp only [List.getElem?_cons_succ] at hd
      rw [drawn_offset_cons_succ, drawn_offset_cons_succ, ih d2 hd]
      omega

/-- A deck passing the follow-on scan respects every per-index legal
blue-count set along the fact list. -/
theorem follow_on_scan_constraint (sets : List (Option (List Nat)))
    (plibs : List PlayerID) (d : List Policy) :
    ∀ (ers : List ElectionResult) (off idx : Nat),
    follow_on_scan sets plibs d off idx ers = true →
    ∀ j er S, ers[j]? = Option.some er →
    sets[idx + j]? = Option.some (Option.some S) →
    S.contains (count_policies d (off + drawn_offset ers j)
      er.cards_total_drawn_discarded.1 Policy.Liberal) = true := by
  intro ers
  induction ers with
  | nil => intro off idx _ j er S hj; simp at hj
  | cons er0 rest ih =>
    intro off idx hscan j er S hj hS
    simp only [follow_on_scan, Bool.and_eq_true] at hscan
    cases j with
    | zero =>
      simp only [List.getElem?_cons_zero, Option.some.injEq] at hj
      subst hj
      rw [Nat.add_zero] at hS
      have hfo := hscan.1.2
      rw [hS] at hfo
      rw [drawn_offset_zero, Nat.add_zero]
      exact hfo
    | succ j2 =>
      simp only [List.getElem?_cons_succ] at hj
      have hrec := ih (off + er0.cards_total_drawn_discarded.1) (idx + 1)
        hscan.2 j2 er S hj (by rw [← hS]; congr 1; omega)
      rw [drawn_offset_cons_succ]
      have harith : off + (er0.cards_total_drawn_discarded.1 +
          drawn_offset rest j2) =
          off + er0.cards_total_drawn_discarded.1 + drawn_offset rest j2 := by
        omega
      rw [harith]
      exact hrec

/-- Splitting a count over a fresh value and a value list. -/
theorem countP_beq_or_contains (val : α → Nat) (v : Nat) (vs : List Nat)
    (hv : v ∉ vs) (P : List α) :
    P.countP (fun x => (v :: vs).contains (val x)) =
      P.countP (fun x => val x == v) +
      P.countP (fun x => vs.contains (val x)) := by
  induction P with
  | nil => rfl
  | cons a rest ih =>
    simp only [List.countP_cons, ih]
    by_cases hav : val a = v
    · have h1 : ((v :: vs).contains (val a)) = true := by
        simp [List.elem_iff, hav]
      have h2 : (val a == v) = true := by simp [hav]
      have h3 : (vs.contains (val a)) = false := by
        rw [← Bool.not_eq_true]
        intro hc
        exact hv (hav ▸ List.elem_iff.mp hc)
      rw [h1, h2, h3]
      norm_num
      omega
    · have h2 : (val a == v) = false := by
        rw [beq_eq_false_iff_ne]; exact hav
      have h1 : ((v :: vs).contains (val a)) = (vs.contains (val a)) := by
        by_cases hin : val a ∈ vs
        · simp [List.elem_iff, hin]
        · have : val a ∉ (v :: vs) := by
            intro hc
            rcases List.mem_cons.mp hc with hc1 | hc2
            · exact hav hc1
            · exact hin hc2
          simp [List.elem_iff, hin, this]
      rw [h1, h2]
      cases hvs : (vs.contains (val a)) <;> norm_num <;> omega

/-- Counting each value of a duplicate-free list separately sums to the
count of the membership predicate. -/
theorem sum_countP_distinct (val : α → Nat) : ∀ (vals : List Nat),
    vals.Nodup → ∀ P : List α,
    (vals.map (fun v => P.countP (fun x => val x == v))).sum =
      P.countP (fun x => vals.contains (val x)) := by
  intro vals
  induction vals with
  | nil =>
    intro _ P
    simp [List.countP_eq_zero]
  | cons v vs ih =>
    intro hnd P
    rw [List.map_cons, List.sum_cons,
      countP_beq_or_contains val v vs (List.nodup_cons.mp hnd).1 P,
      ih (List.nodup_cons.mp hnd).2 P]

/-- The sibling conservation kernel: for a family of next-hypotheses
with pairwise distinct seen-blue values that exactly populate the legal
follow-on set at their shuffle position, the matching counts of
complex_card_counter sum to its checked count. -/
theorem complex_card_counter_conservation (num_total_lib num_total_fasc : Nat)
    (ers hyps : List ElectionResult)
    (cons : List (Option (List Nat)))
    (hcl plibs : List PlayerID) (dth : Nat) (erd : ElectionResult)
    (S : List Nat) (rers : List ElectionResult)
    (hhyps : (hyps.map (fun er => er.cards_total_drawn_discarded.1)).sum =
      drawn_offset ers dth)
    (herd : ers[dth]? = Option.some erd)
    (hS : cons[dth]? = Option.some (Option.some S))
    (hdrawn : ∀ c ∈ rers, c.cards_total_drawn_discarded.1 =
      erd.cards_total_drawn_discarded.1)
    (hdist : (rers.map (fun c => c.seen_blues)).Nodup)
    (hSiff : ∀ v, v ∈ S ↔ v ∈ rers.map (fun c => c.seen_blues)) :
    (rers.map (fun c => (complex_card_counter num_total_lib num_total_fasc
        ers hyps cons hcl plibs c).num_matching)).sum =
      (complex_card_counter_decks num_total_lib num_total_fasc ers hyps cons
        hcl plibs).length := by
  set decks := complex_card_counter_decks num_total_lib num_total_fasc ers
    hyps cons hcl plibs with hdecks
  have hmatch : ∀ c ∈ rers, (complex_card_counter num_total_lib
      num_total_fasc ers hyps cons hcl plibs c).num_matching =
      decks.countP (fun deck =>
        count_policies deck (drawn_offset ers dth)
          erd.cards_total_drawn_discarded.1 Policy.Liberal == c.seen_blues) := by
    intro c hc
    rw [complex_card_counter]
    simp only [← hdecks]
    rw [hhyps, hdrawn c hc]
    refine List.countP_congr (fun deck _ => ?_)
    constructor
    · intro hx
      simp only [decide_eq_true_eq] at hx
      simp [hx]
    · intro hx
      have := eq_of_beq hx
      simp [this]
  rw [List.map_congr_left hmatch]
  have hmm : (rers.map (fun c => decks.countP (fun deck =>
      count_policies deck (drawn_offset ers dth)
        erd.cards_total_drawn_discarded.1 Policy.Liberal ==
        c.seen_blues))).sum =
      ((rers.map (fun c => c.seen_blues)).map (fun v => decks.countP
        (fun deck => count_policies deck (drawn_offset ers dth)
          erd.cards_total_drawn_discarded.1 Policy.Liberal == v))).sum := by
    rw [List.map_map]
    rfl
  rw [hmm, sum_countP_distinct _ _ hdist]
  have hall : ∀ deck ∈ decks, ((rers.map (fun c => c.seen_blues)).contains
      (count_policies deck (drawn_offset ers dth)
        erd.cards_total_drawn_discarded.1 Policy.Liberal)) = true := by
    intro deck hdeck
    rw [hdecks, complex_card_counter_decks] at hdeck
    have hfo : follow_on_scan cons plibs deck 0 0 ers = true := by
      have h1 := List.mem_filter.mp hdeck
      have h2 := List.mem_filter.mp h1.1
      exact h2.2
    have hd_lt : dth < ers.length := by
      by_contra hc
      rw [List.getElem?_eq_none (by omega)] at herd
      exact Option.noConfusion herd
    have hconstr := follow_on_scan_constraint cons plibs deck ers 0 0 hfo
      dth erd S herd (by simpa using hS)
    rw [Nat.zero_add] at hconstr
    rw [List.elem_iff]
    rw [← hSiff]
    exact List.elem_iff.mp hconstr
  exact List.countP_eq_length.mpr hall

/-- Element lookup through the index-wise union fold of constraint
vectors: a position carrying a set in the seed and in every folded vector
carries the union of all of them. -/
theorem foldl_zip_merge_getElem (i : Nat) :
    ∀ (vs : List (List (Option (List Nat))))
      (v : List (Option (List Nat))) (s0 : List Nat),
    v[i]? = Option.some (Option.some s0) →
    (∀ w ∈ vs, ∃ s, w[i]? = Option.some (Option.some s)) →
    ∃ S, (vs.foldl (fun lvec rvec =>
        List.zipWith (fun lo ro =>
          match lo, ro with
          | Option.some lset, Option.some rset => Option.some (lset ∪ rset)
          | _, _ => Option.none) lvec rvec) v)[i]? =
      Option.some (Option.some S) ∧
      ∀ x, x ∈ S ↔ (x ∈ s0 ∨ ∃ w ∈ vs, ∃ s,
        w[i]? = Option.some (Option.some s) ∧ x ∈ s) := by
  intro vs
  induction vs with
  | nil =>
    intro v s0 hv _
    refine ⟨s0, hv, fun x => ?_⟩
    simp
  | cons w ws ih =>
    intro v s0 hv hall
    obtain ⟨sw, hsw⟩ := hall w (List.mem_cons_self _ _)
    have hzip : (List.zipWith (fun lo ro =>
        match lo, ro with
        | Option.some lset, Option.some rset => Option.some (lset ∪ rset)
        | _, _ => Option.none) v w)[i]? =
        Option.some (Option.some (s0 ∪ sw)) := by
      rw [List.getElem?_zipWith]
      rw [hv, hsw]
    obtain ⟨S, hS, hmem⟩ := ih _ (s0 ∪ sw) hzip
      (fun w2 hw2 => hall w2 (List.mem_cons_of_mem _ hw2))
    refine ⟨S, by rw [List.foldl_cons]; exact hS, fun x => ?_⟩
    rw [hmem x]
    constructor
    · rintro (hx | ⟨w2, hw2, s2, hs2, hx2⟩)
      · rcases List.mem_union_iff.mp hx with hx0 | hxw
        · exact Or.inl hx0
        · exact Or.inr ⟨w, List.mem_cons_self _ _, sw, hsw, hxw⟩
      · exact Or.inr ⟨w2, List.mem_cons_of_mem _ hw2, s2, hs2, hx2⟩
    · rintro (hx | ⟨w2, hw2, s2, hs2, hx2⟩)
      · exact Or.inl (List.mem_union_iff.mpr (Or.inl hx))
      · rcases List.mem_cons.mp hw2 with rfl | hw2t
        · rw [hsw] at hs2
          obtain ⟨rfl⟩ : sw = s2 := by
            cases hs2
            rfl
          exact Or.inl (List.mem_union_iff.mpr (Or.inr hx2))
        · exact Or.inr ⟨w2, hw2t, s2, hs2, hx2⟩

/-- The index-wise union fold keeps vectors at least as long as every
input. -/
theorem foldl_zip_merge_length_ge (k : Nat) :
    ∀ (vs : List (List (Option (List Nat))))
      (v : List (Option (List Nat))),
    k ≤ v.length → (∀ w ∈ vs, k ≤ w.length) →
    k ≤ (vs.foldl (fun lvec rvec =>
        List.zipWith (fun lo ro =>
          match lo, ro with
          | Option.some lset, Option.some rset => Option.some (lset ∪ rset)
          | _, _ => Option.none) lvec rvec) v).length := by
  intro vs
  induction vs with
  | nil => intro v hv _; exact hv
  | cons w ws ih =>
    intro v hv hall
    rw [List.foldl_cons]
    refine ih _ ?_ (fun w2 hw2 => hall w2 (List.mem_cons_of_mem _ hw2))
    rw [List.length_zipWith]
    exact le_min hv (hall w (List.mem_cons_self _ _))

/-- A successful fold of the children's constraint vectors is the union
fold over a non-empty family. -/
theorem fold_children_legal_draws_some
    (vecs : List (List (Option (List Nat))))
    (F : List (Option (List Nat)))
    (h : fold_children_legal_draws vecs = Option.some F) :
    ∃ v vs, vecs = v :: vs ∧
      F = vs.foldl (fun lvec rvec =>
        List.zipWith (fun lo ro =>
          match lo, ro with
          | Option.some lset, Option.some rset => Option.some (lset ∪ rset)
          | _, _ => Option.none) lvec rvec) v := by
  cases vecs with
  | nil => exact Option.noConfusion h
  | cons v vs =>
    rw [fold_children_legal_draws] at h
    exact ⟨v, vs, rfl, (Option.some.inj h).symm⟩

/-- Replacing a node's relative probability keeps its election result. -/
theorem set_relative_probability_rer (c : TreeNode) (rp : FilterResult) :
    (c.set_relative_probability rp).relevant_election_result =
      c.relevant_election_result := by
  cases c; rfl

/-- Replacing a node's relative probability stores the new value. -/
theorem set_relative_probability_rp (c : TreeNode) (rp : FilterResult) :
    (c.set_relative_probability rp).relative_probability = rp := by
  cases c; rfl

/-- Replacing a node's relative probability keeps its subtree check. -/
theorem set_relative_probability_check (c : TreeNode) (rp : FilterResult) :
    node_children_check (c.set_relative_probability rp) =
      node_children_check c := by
  cases c; rfl

/-- A sibling group whose members all pass the recursive check passes the
group recursion. -/
theorem children_check_of_forall : ∀ ns : List TreeNode,
    (∀ n ∈ ns, node_children_check n = true) → children_check ns = true := by
  intro ns
  induction ns with
  | nil => intro _; rfl
  | cons n rest ih =>
    intro hall
    rw [children_check, Bool.and_eq_true]
    exact ⟨hall n (List.mem_cons_self _ _),
      ih (fun m hm => hall m (List.mem_cons_of_mem _ hm))⟩

/-- The maximum of a constant non-empty list of naturals. -/
theorem max?_getD_of_const (v : Nat) : ∀ l : List Nat,
    (∀ x ∈ l, x = v) → l ≠ [] → l.max?.getD 0 = v := by
  have haux : ∀ (as : List Nat), (∀ x ∈ as, x = v) →
      as.foldl max v = v := by
    intro as
    induction as with
    | nil => intro _; rfl
    | cons a rest ih =>
      intro hall
      rw [List.foldl_cons, hall a (List.mem_cons_self _ _)]
      rw [Nat.max_self]
      exact ih (fun x hx => hall x (List.mem_cons_of_mem _ hx))
  intro l hall hne
  cases l with
  | nil => exact absurd rfl hne
  | cons a rest =>
    rw [List.max?_cons'] at *
    rw [hall a (List.mem_cons_self _ _)]
    simp only [Option.getD_some]
    exact haux rest (fun x hx => hall x (List.mem_cons_of_mem _ hx))

/-- Summing the stored matching counts of the kept (positive-matching)
children recovers the sum over all candidates. -/
theorem filterMap_keep_sum (f : TreeNode → FilterResult) :
    ∀ l : List TreeNode,
    ((l.filterMap (fun c => if 0 < (f c).num_matching then
        Option.some (c.set_relative_probability (f c))
      else Option.none)).map
      (fun n => n.relative_probability.num_matching)).sum =
    (l.map (fun c => (f c).num_matching)).sum := by
  intro l
  induction l with
  | nil => rfl
  | cons c rest ih =>
    rw [List.filterMap_cons, List.map_cons, List.sum_cons]
    by_cases hdec : 0 < (f c).num_matching
    · rw [if_pos hdec, List.map_cons, List.sum_cons,
        set_relative_probability_rp, ih]
    · rw [if_neg hdec, ih]
      omega

mutual

/-- Shape extraction for a node group: every member is shaped. -/
theorem nodes_shape_mem (ers : List ElectionResult) (dd : Nat) :
    ∀ (ns : List TreeNode), nodes_shape ers dd ns = true →
    ∀ n ∈ ns, node_shape ers dd n = true := by
  intro ns
  induction ns with
  | nil => intro _ n hn; simp at hn
  | cons m rest ih =>
    intro hs n hn
    rw [nodes_shape, Bool.and_eq_true, Bool.and_eq_true] at hs
    rcases List.mem_cons.mp hn with rfl | hnr
    · exact hs.1.1
    · exact ih hs.2 n hnr

end

/-- Shape extraction: the election-result position and the children shape
of one shaped node. -/
theorem node_shape_elim (ers : List ElectionResult) (dd : Nat)
    (rp : FilterResult) (ocb : Nat) (rer : ElectionResult)
    (children : List TreeNode)
    (h : node_shape ers dd (TreeNode.mk rp ocb rer children) = true) :
    (∃ er, ers[dd]? = Option.some er ∧
      rer.cards_total_drawn_discarded.1 =
        er.cards_total_drawn_discarded.1) ∧
    nodes_shape ers (dd + 1) children = true := by
  rw [node_shape, Bool.and_eq_true] at h
  refine ⟨?_, h.2⟩
  cases her : ers[dd]? with
  | none => rw [her] at h; exact absurd h.1 (by simp)
  | some er =>
    rw [her] at h
    exact ⟨er, rfl, by
      have := h.1
      exact eq_of_beq this⟩

/-- Shape extraction: distinct seen-blue values across a shaped sibling
group. -/
theorem nodes_shape_distinct (ers : List ElectionResult) (dd : Nat) :
    ∀ ns : List TreeNode, nodes_shape ers dd ns = true →
    List.Pairwise (fun a b : TreeNode =>
      a.relevant_election_result.seen_blues ≠
        b.relevant_election_result.seen_blues) ns := by
  intro ns
  induction ns with
  | nil => intro _; exact List.Pairwise.nil
  | cons m rest ih =>
    intro hs
    rw [nodes_shape, Bool.and_eq_true, Bool.and_eq_true] at hs
    refine List.Pairwise.cons ?_ (ih hs.2)
    intro b hb
    have hall := hs.1.2
    rw [List.all_eq_true] at hall
    have := hall b hb
    simp only [Bool.not_eq_eq_eq_not, Bool.not_true, beq_eq_false_iff_ne]
      at this
    exact this

/-- The checked count of complex_card_counter is the surviving population
size. -/
theorem ccc_num_checked_eq (num_total_lib num_total_fasc : Nat)
    (hard_facts hypotheses : List ElectionResult)
    (legal_follow_on_sets : List (Option (List Nat)))
    (hard_confirmed_liberals path_assumed_liberals : List PlayerID)
    (new_hypothesis : ElectionResult) :
    (complex_card_counter num_total_lib num_total_fasc hard_facts hypotheses
      legal_follow_on_sets hard_confirmed_liberals path_assumed_liberals
      new_hypothesis).num_checked =
    (complex_card_counter_decks num_total_lib num_total_fasc hard_facts
      hypotheses legal_follow_on_sets hard_confirmed_liberals
      path_assumed_liberals).length := rfl

/-- Definitional unfolding of the annotation recursion at a leaf. -/
theorem annotate_rec_unfold_leaf (sa : ShuffleAnalysis) (ps : PlayerState)
    (hcl : List PlayerID) (path : List TreeNode) (depth : Nat)
    (rp : FilterResult) (ocb : Nat) (rer : ElectionResult) :
    annotate_trees_relative_recursive sa ps hcl path
      (TreeNode.mk rp ocb rer []) depth =
    (match filtered_histogramm (true, true) ps
        (confirmed_deduced_path_fasc path) with
     | Except.error _ => Except.error ()
     | Except.ok histogram =>
       Except.ok (if 0 < (complex_card_counter sa.initial_deck_liberal
            sa.initial_deck_fascist sa.election_results
            (path.map (fun tn => tn.relevant_election_result))
            (List.replicate (depth + 1) Option.none) hcl
            (extract_confirmed_libs histogram) rer).num_matching then
          Option.some (TreeNode.mk (complex_card_counter
              sa.initial_deck_liberal sa.initial_deck_fascist
              sa.election_results
              (path.map (fun tn => tn.relevant_election_result))
              (List.replicate (depth + 1) Option.none) hcl
              (extract_confirmed_libs histogram) rer) ocb rer [],
            (List.replicate (depth + 1)
              (Option.none : Option (List Nat))).set depth
              (Option.some [rer.seen_blues]))
        else Option.none)) := rfl

/-- Definitional unfolding of the annotation recursion at an internal
node. -/
theorem annotate_rec_unfold_internal (sa : ShuffleAnalysis)
    (ps : PlayerState) (hcl : List PlayerID) (path : List TreeNode)
    (depth : Nat) (rp : FilterResult) (ocb : Nat) (rer : ElectionResult)
    (c : TreeNode) (cs : List TreeNode) :
    annotate_trees_relative_recursive sa ps hcl path
      (TreeNode.mk rp ocb rer (c :: cs)) depth =
    (match filtered_histogramm (true, true) ps
        (confirmed_deduced_path_fasc path) with
     | Except.error _ => Except.error ()
     | Except.ok histogram =>
       (annotate_trees_relative_list sa ps hcl
         (path ++ [TreeNode.mk rp ocb rer []]) (c :: cs) (depth + 1)).bind
         (fun results =>
           match fold_children_legal_draws (results.map (fun r => r.2)) with
           | Option.none => Except.ok Option.none
           | Option.some follow_on_card_constraints =>
             Except.ok (Option.some (TreeNode.mk rp ocb rer
               ((results.map (fun r => r.1)).filterMap (fun child =>
                 if 0 < (complex_card_counter sa.initial_deck_liberal
                     sa.initial_deck_fascist sa.election_results
                     ((path.map (fun tn =>
                       tn.relevant_election_result)) ++ [rer])
                     follow_on_card_constraints hcl
                     (extract_confirmed_libs histogram)
                     child.relevant_election_result).num_matching then
                   Option.some (child.set_relative_probability
                     (complex_card_counter sa.initial_deck_liberal
                       sa.initial_deck_fascist sa.election_results
                       ((path.map (fun tn =>
                         tn.relevant_election_result)) ++ [rer])
                       follow_on_card_constraints hcl
                       (extract_confirmed_libs histogram)
                       child.relevant_election_result))
                 else Option.none)),
               follow_on_card_constraints.set depth
                 (Option.some [rer.seen_blues]))))) := rfl

/-- The annotation recursion panics when the parent-path histogram
fails. -/
theorem annotate_rec_hist_error (sa : ShuffleAnalysis) (ps : PlayerState)
    (hcl : List PlayerID) (path : List TreeNode) (t : TreeNode)
    (depth : Nat) (err : Error)
    (hhist : filtered_histogramm (true, true) ps
      (confirmed_deduced_path_fasc path) = Except.error err) :
    annotate_trees_relative_recursive sa ps hcl path t depth =
      Except.error () := by
  cases t with
  | mk rp ocb rer children =>
    cases children with
    | nil => rw [annotate_rec_unfold_leaf, hhist]
    | cons c cs => rw [annotate_rec_unfold_internal, hhist]

/-- Definitional unfolding of the path filter at a leaf. -/
theorem fpr_unfold_leaf (pred : List TreeNode → Bool)
    (parents : List TreeNode) (rp : FilterResult) (ocb : Nat)
    (rer : ElectionResult) :
    filter_paths_recursive pred parents (TreeNode.mk rp ocb rer []) =
    (if pred (parents ++ [TreeNode.mk rp ocb rer []]) then
      Option.some (TreeNode.mk rp ocb rer []) else Option.none) := rfl

/-- Definitional unfolding of the path filter at an internal node. -/
theorem fpr_unfold_internal (pred : List TreeNode → Bool)
    (parents : List TreeNode) (rp : FilterResult) (ocb : Nat)
    (rer : ElectionResult) (c : TreeNode) (cs : List TreeNode) :
    filter_paths_recursive pred parents (TreeNode.mk rp ocb rer (c :: cs)) =
    (if (filter_paths_list pred (parents ++ [TreeNode.mk rp ocb rer []])
        (c :: cs)).isEmpty then Option.none
     else Option.some (TreeNode.mk rp ocb rer (filter_paths_list pred
       (parents ++ [TreeNode.mk rp ocb rer []]) (c :: cs)))) := rfl

/-- Definitional unfolding of the sibling path filter on an empty group. -/
theorem fpl_unfold_nil (pred : List TreeNode → Bool)
    (parents : List TreeNode) :
    filter_paths_list pred parents [] = [] := rfl

/-- Definitional unfolding of the sibling path filter on a non-empty
group. -/
theorem fpl_unfold_cons (pred : List TreeNode → Bool)
    (parents : List TreeNode) (c : TreeNode) (cs : List TreeNode) :
    filter_paths_list pred parents (c :: cs) =
    (match filter_paths_recursive pred parents c with
     | Option.some c2 => c2 :: filter_paths_list pred parents cs
     | Option.none => filter_paths_list pred parents cs) := rfl

/-- Shape extraction on an undestructured node: a shaped node draws as many
cards as its shuffle position. -/
theorem node_shape_er (ers : List ElectionResult) (dd : Nat) (n : TreeNode)
    (h : node_shape ers dd n = true) :
    ∃ er, ers[dd]? = Option.some er ∧
      n.relevant_election_result.cards_total_drawn_discarded.1 =
        er.cards_total_drawn_discarded.1 := by
  cases n with
  | mk rp ocb rer children =>
    obtain ⟨⟨er, her, heq⟩, _⟩ := node_shape_elim ers dd rp ocb rer children h
    exact ⟨er, her, heq⟩

/-- The path filter preserves structural alignment with the shuffle: a
filtered sibling group is still shaped, and every surviving node keeps the
election result of a source node. -/
theorem filter_paths_list_shape (ers : List ElectionResult)
    (pred : List TreeNode → Bool) :
    ∀ (parents ns : List TreeNode) (d : Nat),
    nodes_shape ers d ns = true →
    nodes_shape ers d (filter_paths_list pred parents ns) = true := by
  have main : ∀ (parents ns : List TreeNode), ∀ d : Nat,
      nodes_shape ers d ns = true →
      nodes_shape ers d (filter_paths_list pred parents ns) = true ∧
      ∀ m2 ∈ filter_paths_list pred parents ns, ∃ m ∈ ns,
        m2.relevant_election_result = m.relevant_election_result := by
    refine filter_paths_list.induct pred
      (fun parents n => ∀ (d : Nat) (n2 : TreeNode),
        node_shape ers d n = true →
        filter_paths_recursive pred parents n = Option.some n2 →
        node_shape ers d n2 = true ∧
        n2.relevant_election_result = n.relevant_election_result)
      (fun parents ns => ∀ d : Nat,
        nodes_shape ers d ns = true →
        nodes_shape ers d (filter_paths_list pred parents ns) = true ∧
        ∀ m2 ∈ filter_paths_list pred parents ns, ∃ m ∈ ns,
          m2.relevant_election_result = m.relevant_election_result)
      ?_ ?_ ?_ ?_ ?_ ?_ ?_
    · -- kept leaf
      intro parents rp ocb rer hpred d n2 hshape hfilt
      rw [fpr_unfold_leaf, if_pos hpred] at hfilt
      have hn2 := Option.some.inj hfilt
      subst hn2
      exact ⟨hshape, rfl⟩
    · -- dropped leaf
      intro parents rp ocb rer hpred d n2 _ hfilt
      rw [fpr_unfold_leaf, if_neg hpred] at hfilt
      exact Option.noConfusion hfilt
    · -- internal node with no surviving children
      intro parents rp ocb rer c cs children hemp _ d n2 _ hfilt
      rw [fpr_unfold_internal, if_pos hemp] at hfilt
      exact Option.noConfusion hfilt
    · -- internal node with surviving children
      intro parents rp ocb rer c cs children hne hIH d n2 hshape hfilt
      rw [fpr_unfold_internal, if_neg hne] at hfilt
      have hn2 := Option.some.inj hfilt
      subst hn2
      obtain ⟨⟨erd, herd, hdr⟩, hch⟩ :=
        node_shape_elim ers d rp ocb rer (c :: cs) hshape
      have hrec := hIH (d + 1) hch
      refine ⟨?_, rfl⟩
      rw [node_shape, Bool.and_eq_true]
      refine ⟨?_, hrec.1⟩
      simp only [herd]
      rw [hdr]
      exact beq_self_eq_true _
    · -- empty sibling group
      intro parents d _
      refine ⟨rfl, fun m2 hm2 => ?_⟩
      rw [fpl_unfold_nil] at hm2
      exact absurd hm2 (List.not_mem_nil m2)
    · -- sibling kept by the filter
      intro parents c cs c2 hmatch hIH1 hIH2 d hshape
      rw [nodes_shape, Bool.and_eq_true, Bool.and_eq_true] at hshape
      obtain ⟨⟨hcshape, hdist⟩, hcsshape⟩ := hshape
      have h1 := hIH1 d c2 hcshape hmatch
      have h2 := hIH2 d hcsshape
      have hfl : filter_paths_list pred parents (c :: cs) =
          c2 :: filter_paths_list pred parents cs := by
        rw [fpl_unfold_cons, hmatch]
      rw [hfl]
      constructor
      · rw [nodes_shape, Bool.and_eq_true, Bool.and_eq_true]
        refine ⟨⟨h1.1, ?_⟩, h2.1⟩
        rw [List.all_eq_true]
        intro m2 hm2
        obtain ⟨m, hm, hm2rer⟩ := h2.2 m2 hm2
        have hcm : c.relevant_election_result.seen_blues ≠
            m.relevant_election_result.seen_blues := by
          have := (List.all_eq_true.mp hdist) m hm
          simp only [Bool.not_eq_eq_eq_not, Bool.not_true,
            beq_eq_false_iff_ne] at this
          exact this
        rw [h1.2, hm2rer]
        simp only [Bool.not_eq_eq_eq_not, Bool.not_true,
          beq_eq_false_iff_ne]
        exact hcm
      · intro m2 hm2
        rcases List.mem_cons.mp hm2 with rfl | hm2t
        · exact ⟨c, List.mem_cons_self _ _, h1.2⟩
        · obtain ⟨m, hm, hr⟩ := h2.2 m2 hm2t
          exact ⟨m, List.mem_cons_of_mem _ hm, hr⟩
    · -- sibling dropped by the filter
      intro parents c cs hmatch _ hIH2 d hshape
      rw [nodes_shape, Bool.and_eq_true, Bool.and_eq_true] at hshape
      have h2 := hIH2 d hshape.2
      have hfl : filter_paths_list pred parents (c :: cs) =
          filter_paths_list pred parents cs := by
        rw [fpl_unfold_cons, hmatch]
      rw [hfl]
      refine ⟨h2.1, fun m2 hm2 => ?_⟩
      obtain ⟨m, hm, hr⟩ := h2.2 m2 hm2
      exact ⟨m, List.mem_cons_of_mem _ hm, hr⟩
  intro parents ns d h
  exact (main parents ns d h).1

/-- Definitional unfolding of tree generation at an exhausted shuffle. -/
theorem rgt_nil : recursively_generate_tree [] = [] := rfl

/-- Definitional unfolding of tree generation at a top-deck result. -/
theorem rgt_topdeck (p : Policy) (cc : CardContext)
    (rest : List ElectionResult) :
    recursively_generate_tree (ElectionResult.TopDeck p cc :: rest) =
    [TreeNode.mk (FilterResult.none 1)
      (ElectionResult.TopDeck p cc).passed_blues
      (ElectionResult.TopDeck p cc) (recursively_generate_tree rest)] := rfl

/-- Definitional unfolding of tree generation at an election result. -/
theorem rgt_election (eg : ElectedGovernment) (rest : List ElectionResult) :
    recursively_generate_tree (ElectionResult.Election eg :: rest) =
    (List.range 3).map (fun x =>
      TreeNode.mk (FilterResult.none 1) eg.president_claimed_blues
        (ElectionResult.Election { eg with president_claimed_blues :=
          x + (ElectionResult.Election eg).passed_blues })
        (recursively_generate_tree rest)) := rfl

/-- The drawn-card count of an election is independent of the claimed-blue
value. -/
theorem ctdd_pcb (eg : ElectedGovernment) (k : Nat) :
    (ElectionResult.Election
      { eg with president_claimed_blues := k }).cards_total_drawn_discarded =
    (ElectionResult.Election eg).cards_total_drawn_discarded := rfl

/-- Distinct claimed-blue values give distinct seen-blue values. -/
theorem seen_blues_pcb_ne (eg : ElectedGovernment) (j k : Nat) (hne : j ≠ k) :
    (ElectionResult.Election
      { eg with president_claimed_blues := j }).seen_blues ≠
    (ElectionResult.Election
      { eg with president_claimed_blues := k }).seen_blues := by
  obtain ⟨p, c, pcb, ccb, conf, pp, pa, dc, cnh⟩ := eg
  simp only [ElectionResult.seen_blues]
  omega

/-- The generated tree aligns with the shuffle's election results at every
depth. -/
theorem recursively_generate_tree_shape (ers : List ElectionResult) :
    ∀ (suffix : List ElectionResult) (d : Nat), ers.drop d = suffix →
    nodes_shape ers d (recursively_generate_tree suffix) = true := by
  intro suffix
  induction suffix with
  | nil =>
    intro d _
    rw [rgt_nil]
    rfl
  | cons er rest ih =>
    intro d hdrop
    have hget : ers[d]? = Option.some er := by
      have h0 : (ers.drop d)[0]? = Option.some er := by
        rw [hdrop]
        exact List.getElem?_cons_zero
      rw [List.getElem?_drop] at h0
      simpa using h0
    have hdrop2 : ers.drop (d + 1) = rest := by
      have h1 : List.drop 1 (List.drop d ers) = List.drop 1 (er :: rest) := by
        rw [hdrop]
      rw [List.drop_drop] at h1
      simpa using h1
    have hkids := ih (d + 1) hdrop2
    cases er with
    | TopDeck p cc =>
      rw [rgt_topdeck]
      rw [nodes_shape, node_shape]
      simp only [hget, hkids, List.all_nil, Bool.and_true,
        beq_self_eq_true, Bool.true_and]
      rfl
    | Election eg =>
      rw [rgt_election]
      have hrange : List.range 3 = [0, 1, 2] := by decide
      rw [hrange, List.map_cons, List.map_cons, List.map_cons, List.map_nil]
      have hdrawn : ∀ k : Nat, node_shape ers d (TreeNode.mk
          (FilterResult.none 1) eg.president_claimed_blues
          (ElectionResult.Election { eg with president_claimed_blues :=
            k + (ElectionResult.Election eg).passed_blues })
          (recursively_generate_tree rest)) = true := by
        intro k
        rw [node_shape]
        simp only [hget, hkids, Bool.and_true]
        rw [ctdd_pcb]
        exact beq_self_eq_true _
      have hdistinct : ∀ j k : Nat, j ≠ k →
          (!((ElectionResult.Election { eg with president_claimed_blues :=
            j + (ElectionResult.Election eg).passed_blues }).seen_blues ==
          (ElectionResult.Election { eg with president_claimed_blues :=
            k + (ElectionResult.Election eg).passed_blues }).seen_blues)) =
          true := by
        intro j k hjk
        simp only [Bool.not_eq_eq_eq_not, Bool.not_true,
          beq_eq_false_iff_ne]
        exact seen_blues_pcb_ne eg _ _ (by omega)
      rw [nodes_shape, nodes_shape, nodes_shape, nodes_shape]
      simp only [hdrawn, List.all_cons, List.all_nil,
        TreeNode.relevant_election_result, Bool.and_true, Bool.true_and]
      rw [hdistinct 0 1 (by omega), hdistinct 0 2 (by omega),
        hdistinct 1 2 (by omega)]
      rfl

/-- Definitional unfolding of the top-level relative annotation. -/
theorem atr_unfold (trees : List TreeNode) (sa : ShuffleAnalysis)
    (ps : PlayerState) :
    annotate_trees_relative trees sa ps =
    (annotate_trees_relative_list sa ps
      (match filtered_histogramm (true, true) ps [] with
       | Except.ok histogram => extract_confirmed_libs histogram
       | Except.error _ => []) [] trees 0).bind (fun results =>
      match fold_children_legal_draws (results.map (fun r => r.2)) with
      | Option.none => Except.error ()
      | Option.some follow_on_card_constraints =>
        Except.ok ((results.map (fun r => r.1)).map (fun child =>
          child.set_relative_probability (complex_card_counter
            sa.initial_deck_liberal sa.initial_deck_fascist
            sa.election_results [] follow_on_card_constraints
            (match filtered_histogramm (true, true) ps [] with
             | Except.ok histogram => extract_confirmed_libs histogram
             | Except.error _ => []) []
            child.relevant_election_result)))) := rfl

/-- The conservation kernel applied to the pruning filter_map of the
annotation recursion: the kept children's matching counts sum to their
shared checked count. -/
theorem sibling_conservation_filterMap (L Fc : Nat)
    (ers hyps : List ElectionResult) (cons : List (Option (List Nat)))
    (hcl plibs : List PlayerID) (dth : Nat) (erd : ElectionResult)
    (S : List Nat) (cands : List TreeNode)
    (hhyps : (hyps.map (fun er => er.cards_total_drawn_discarded.1)).sum =
      drawn_offset ers dth)
    (herd : ers[dth]? = Option.some erd)
    (hS : cons[dth]? = Option.some (Option.some S))
    (hdrawn : ∀ t ∈ cands,
      t.relevant_election_result.cards_total_drawn_discarded.1 =
        erd.cards_total_drawn_discarded.1)
    (hdist : (cands.map (fun t =>
      t.relevant_election_result.seen_blues)).Nodup)
    (hSiff : ∀ v, v ∈ S ↔ v ∈ cands.map (fun t =>
      t.relevant_election_result.seen_blues)) :
    sibling_conservation (cands.filterMap (fun child =>
      if 0 < (complex_card_counter L Fc ers hyps cons hcl plibs
          child.relevant_election_result).num_matching then
        Option.some (child.set_relative_probability (complex_card_counter
          L Fc ers hyps cons hcl plibs child.relevant_election_result))
      else Option.none)) = true := by
  have hkern := complex_card_counter_conservation L Fc ers hyps cons hcl
    plibs dth erd S (cands.map (fun t => t.relevant_election_result))
    hhyps herd hS
    (fun e he => by
      obtain ⟨t, ht, rfl⟩ := List.mem_map.mp he
      exact hdrawn t ht)
    (by rw [List.map_map]; exact hdist)
    (fun v => by rw [List.map_map]; exact hSiff v)
  rw [List.map_map] at hkern
  cases hch : cands.filterMap (fun child =>
      if 0 < (complex_card_counter L Fc ers hyps cons hcl plibs
          child.relevant_election_result).num_matching then
        Option.some (child.set_relative_probability (complex_card_counter
          L Fc ers hyps cons hcl plibs child.relevant_election_result))
      else Option.none) with
  | nil => rfl
  | cons x xs =>
    rw [sibling_conservation, beq_iff_eq]
    have hsum2 : ((x :: xs).map (fun n =>
        n.relative_probability.num_matching)).sum =
        (complex_card_counter_decks L Fc ers hyps cons hcl plibs).length := by
      rw [← hch, filterMap_keep_sum (fun child => complex_card_counter L Fc
        ers hyps cons hcl plibs child.relevant_election_result) cands]
      exact hkern
    have hall : ∀ y ∈ ((x :: xs).map (fun n =>
        n.relative_probability.num_checked)),
        y = (complex_card_counter_decks L Fc ers hyps cons hcl
          plibs).length := by
      intro y hy
      obtain ⟨n, hn, rfl⟩ := List.mem_map.mp hy
      have hn2 : n ∈ cands.filterMap (fun child =>
          if 0 < (complex_card_counter L Fc ers hyps cons hcl plibs
              child.relevant_election_result).num_matching then
            Option.some (child.set_relative_probability (complex_card_counter
              L Fc ers hyps cons hcl plibs child.relevant_election_result))
          else Option.none) := by
        rw [hch]
        exact hn
      obtain ⟨a, ha, haeq⟩ := List.mem_filterMap.mp hn2
      split at haeq
      · have hna := Option.some.inj haeq
        rw [← hna, set_relative_probability_rp]
        exact ccc_num_checked_eq L Fc ers hyps cons hcl plibs
          a.relevant_election_result
      · exact Option.noConfusion haeq
    rw [hsum2, max?_getD_of_const _ _ hall (by simp)]

/-- The conservation kernel applied to the root re-annotation map of
annotate_trees_relative: the annotated roots' matching counts sum to their
shared checked count. -/
theorem sibling_conservation_map (L Fc : Nat)
    (ers hyps : List ElectionResult) (cons : List (Option (List Nat)))
    (hcl plibs : List PlayerID) (dth : Nat) (erd : ElectionResult)
    (S : List Nat) (cands : List TreeNode)
    (hhyps : (hyps.map (fun er => er.cards_total_drawn_discarded.1)).sum =
      drawn_offset ers dth)
    (herd : ers[dth]? = Option.some erd)
    (hS : cons[dth]? = Option.some (Option.some S))
    (hdrawn : ∀ t ∈ cands,
      t.relevant_election_result.cards_total_drawn_discarded.1 =
        erd.cards_total_drawn_discarded.1)
    (hdist : (cands.map (fun t =>
      t.relevant_election_result.seen_blues)).Nodup)
    (hSiff : ∀ v, v ∈ S ↔ v ∈ cands.map (fun t =>
      t.relevant_election_result.seen_blues))
    (hne : cands ≠ []) :
    sibling_conservation (cands.map (fun child =>
      child.set_relative_probability (complex_card_counter L Fc ers hyps
        cons hcl plibs child.relevant_election_result))) = true := by
  have hkern := complex_card_counter_conservation L Fc ers hyps cons hcl
    plibs dth erd S (cands.map (fun t => t.relevant_election_result))
    hhyps herd hS
    (fun e he => by
      obtain ⟨t, ht, rfl⟩ := List.mem_map.mp he
      exact hdrawn t ht)
    (by rw [List.map_map]; exact hdist)
    (fun v => by rw [List.map_map]; exact hSiff v)
  rw [List.map_map] at hkern
  rw [sibling_conservation, beq_iff_eq]
  have hsum2 : ((cands.map (fun child =>
      child.set_relative_probability (complex_card_counter L Fc ers hyps
        cons hcl plibs child.relevant_election_result))).map (fun n =>
      n.relative_probability.num_matching)).sum =
      (complex_card_counter_decks L Fc ers hyps cons hcl plibs).length := by
    rw [List.map_map]
    have hmap : cands.map ((fun n => n.relative_probability.num_matching) ∘
        (fun child => child.set_relative_probability (complex_card_counter
          L Fc ers hyps cons hcl plibs child.relevant_election_result))) =
        cands.map (fun child => (complex_card_counter L Fc ers hyps cons hcl
          plibs child.relevant_election_result).num_matching) :=
      List.map_congr_left (fun c _ => by
        simp only [Function.comp]
        rw [set_relative_probability_rp])
    rw [hmap]
    exact hkern
  rw [hsum2]
  refine (max?_getD_of_const _ _ ?_ ?_).symm
  · intro y hy
    obtain ⟨n, hn, rfl⟩ := List.mem_map.mp hy
    obtain ⟨a, ha, rfl⟩ := List.mem_map.mp hn
    rw [set_relative_probability_rp]
    exact ccc_num_checked_eq L Fc ers hyps cons hcl plibs
      a.relevant_election_result
  · simp only [ne_eq, List.map_eq_nil_iff]
    exact hne

/-- The sibling invariant for one leaf node of the annotation
recursion. -/
theorem annotate_leaf_case (sa : ShuffleAnalysis) (ps : PlayerState)
    (hcl : List PlayerID) (path : List TreeNode) (depth : Nat)
    (histogram : List (PlayerID × (List (SecretRole × FilterResult) × Nat)))
    (hhist : filtered_histogramm (true, true) ps
      (confirmed_deduced_path_fasc path) = Except.ok histogram)
    (rp : FilterResult) (ocb : Nat) (rer : ElectionResult) :
    annotate_node_inv sa ps hcl path (TreeNode.mk rp ocb rer []) depth := by
  intro node2 vec _ _ hrec
  rw [annotate_rec_unfold_leaf, hhist] at hrec
  dsimp only at hrec
  split at hrec
  · have hpair := Option.some.inj (Except.ok.inj hrec)
    rw [Prod.mk.injEq] at hpair
    obtain ⟨hn, hv⟩ := hpair
    refine ⟨?_, ?_, ?_, ?_⟩
    · rw [← hn]
      rfl
    · rw [← hv, List.length_set, List.length_replicate]
    · rw [← hv]
      exact List.getElem?_set_self (by rw [List.length_replicate]; omega)
    · rw [← hn]
      rfl
  · exact Option.noConfusion (Except.ok.inj hrec)

set_option maxHeartbeats 2000000 in
/-- The sibling invariant for one internal node of the annotation
recursion, given the invariant for its children group. -/
theorem annotate_internal_case (sa : ShuffleAnalysis) (ps : PlayerState)
    (hcl : List PlayerID) (path : List TreeNode) (depth : Nat)
    (histogram : List (PlayerID × (List (SecretRole × FilterResult) × Nat)))
    (hhist : filtered_histogramm (true, true) ps
      (confirmed_deduced_path_fasc path) = Except.ok histogram)
    (rp : FilterResult) (ocb : Nat) (rer : ElectionResult) (c : TreeNode)
    (cs : List TreeNode)
    (hIH : annotate_list_inv sa ps hcl (path ++ [TreeNode.mk rp ocb rer []])
      (c :: cs) (depth + 1)) :
    annotate_node_inv sa ps hcl path (TreeNode.mk rp ocb rer (c :: cs))
      depth := by
  intro node2 vec hshape hsum hrec
  rw [annotate_rec_unfold_internal, hhist] at hrec
  obtain ⟨⟨erd, herd, hdrawn_eq⟩, hchshape⟩ :=
    node_shape_elim sa.election_results depth rp ocb rer (c :: cs) hshape
  cases hres : annotate_trees_relative_list sa ps hcl
      (path ++ [TreeNode.mk rp ocb rer []]) (c :: cs) (depth + 1) with
  | error e =>
    rw [hres] at hrec
    exact Except.noConfusion hrec
  | ok results =>
    rw [hres] at hrec
    simp only [Except.bind] at hrec
    have hsum2 : ((path ++ [TreeNode.mk rp ocb rer []]).map (fun tn =>
        tn.relevant_election_result.cards_total_drawn_discarded.1)).sum =
        drawn_offset sa.election_results (depth + 1) := by
      rw [List.map_append, List.sum_append, hsum,
        drawn_offset_succ sa.election_results erd depth herd]
      simp only [List.map_cons, List.map_nil, List.sum_cons, List.sum_nil]
      have hre : (TreeNode.mk rp ocb rer
          []).relevant_election_result.cards_total_drawn_discarded.1 =
          erd.cards_total_drawn_discarded.1 := hdrawn_eq
      omega
    obtain ⟨hfor, hnd⟩ := hIH results hchshape hsum2 hres
    cases hfold : fold_children_legal_draws
        (results.map (fun r => r.2)) with
    | none =>
      rw [hfold] at hrec
      dsimp only at hrec
      exact Option.noConfusion (Except.ok.inj hrec)
    | some F =>
      rw [hfold] at hrec
      dsimp only at hrec
      have hpair := Option.some.inj (Except.ok.inj hrec)
      rw [Prod.mk.injEq] at hpair
      obtain ⟨hn, hv⟩ := hpair
      clear hrec
      obtain ⟨v0, vs, hvecs, hF⟩ :=
        fold_children_legal_draws_some _ F hfold
      cases results with
      | nil =>
        rw [List.map_nil] at hvecs
        exact List.noConfusion hvecs
      | cons r0 rtail =>
      rw [List.map_cons] at hvecs
      have hv0 : r0.2 = v0 := (List.cons_eq_cons.mp hvecs).1
      have hvs : rtail.map (fun r => r.2) = vs :=
        (List.cons_eq_cons.mp hvecs).2
      have hr0 := hfor r0 (List.mem_cons_self _ _)
      have hFlen : depth + 2 ≤ F.length := by
        rw [hF]
        refine foldl_zip_merge_length_ge (depth + 2) vs v0 ?_ ?_
        · rw [← hv0]
          exact hr0.2.1
        · intro w hw
          rw [← hvs] at hw
          obtain ⟨r, hr, hweq⟩ := List.mem_map.mp hw
          rw [← hweq]
          exact (hfor r (List.mem_cons_of_mem _ hr)).2.1
      have hget0 : v0[depth + 1]? = Option.some (Option.some
          [r0.1.relevant_election_result.seen_blues]) := by
        rw [← hv0]
        exact hr0.2.2.1
      have hallvs : ∀ w ∈ vs, ∃ s, w[depth + 1]? =
          Option.some (Option.some s) := by
        intro w hw
        rw [← hvs] at hw
        obtain ⟨r, hr, hweq⟩ := List.mem_map.mp hw
        refine ⟨[r.1.relevant_election_result.seen_blues], ?_⟩
        rw [← hweq]
        exact (hfor r (List.mem_cons_of_mem _ hr)).2.2.1
      obtain ⟨S, hFS0, hSmem⟩ := foldl_zip_merge_getElem (depth + 1) vs v0
        [r0.1.relevant_election_result.seen_blues] hget0 hallvs
      have hFS : F[depth + 1]? = Option.some (Option.some S) := by
        rw [hF]
        exact hFS0
      have hcshape := nodes_shape_mem sa.election_results (depth + 1)
        (c :: cs) hchshape c (List.mem_cons_self _ _)
      obtain ⟨erd1, herd1, _⟩ := node_shape_er sa.election_results
        (depth + 1) c hcshape
      have hrers_drawn : ∀ t ∈ (r0 :: rtail).map (fun r => r.1),
          t.relevant_election_result.cards_total_drawn_discarded.1 =
          erd1.cards_total_drawn_discarded.1 := by
        intro t ht
        obtain ⟨r, hr, hreq⟩ := List.mem_map.mp ht
        obtain ⟨n', hn', hrer⟩ := (hfor r hr).1
        have hshape' := nodes_shape_mem sa.election_results (depth + 1)
          (c :: cs) hchshape n' hn'
        obtain ⟨er', her', hdr'⟩ := node_shape_er sa.election_results
          (depth + 1) n' hshape'
        have her'2 : er' = erd1 := by
          rw [herd1] at her'
          exact (Option.some.inj her').symm
        rw [← hreq, hrer, hdr', her'2]
      have hrers_dist : (((r0 :: rtail).map (fun r => r.1)).map (fun t =>
          t.relevant_election_result.seen_blues)).Nodup := by
        rw [List.map_map]
        exact hnd
      have hSiff : ∀ v, v ∈ S ↔
          v ∈ ((r0 :: rtail).map (fun r => r.1)).map (fun t =>
            t.relevant_election_result.seen_blues) := by
        intro v
        rw [hSmem v]
        constructor
        · rintro (hv1 | ⟨w, hw, s, hs, hvs2⟩)
          · have hveq : v = r0.1.relevant_election_result.seen_blues := by
              simpa using hv1
            subst hveq
            exact List.mem_map.mpr ⟨r0.1,
              List.mem_map.mpr ⟨r0, List.mem_cons_self _ _, rfl⟩, rfl⟩
          · rw [← hvs] at hw
            obtain ⟨r, hr, hweq⟩ := List.mem_map.mp hw
            have hrg := (hfor r (List.mem_cons_of_mem _ hr)).2.2.1
            rw [hweq, hs] at hrg
            have hseq : s = [r.1.relevant_election_result.seen_blues] :=
              Option.some.inj (Option.some.inj hrg)
            rw [hseq] at hvs2
            have hveq : v = r.1.relevant_election_result.seen_blues := by
              simpa using hvs2
            subst hveq
            exact List.mem_map.mpr ⟨r.1,
              List.mem_map.mpr ⟨r, List.mem_cons_of_mem _ hr, rfl⟩, rfl⟩
        · intro hv1
          obtain ⟨t, ht, hteq⟩ := List.mem_map.mp hv1
          obtain ⟨r, hr, hreq⟩ := List.mem_map.mp ht
          rcases List.mem_cons.mp hr with rfl | hrt
          · refine Or.inl ?_
            rw [← hteq, ← hreq]
            simp
          · refine Or.inr ⟨r.2, ?_,
              [r.1.relevant_election_result.seen_blues],
              (hfor r (List.mem_cons_of_mem _ hrt)).2.2.1, ?_⟩
            · rw [← hvs]
              exact List.mem_map.mpr ⟨r, hrt, rfl⟩
            · rw [← hteq, ← hreq]
              simp
      have hhyps : (((path.map (fun tn => tn.relevant_election_result)) ++
          [rer]).map (fun er =>
          er.cards_total_drawn_discarded.1)).sum =
          drawn_offset sa.election_results (depth + 1) := by
        rw [List.map_append, List.sum_append, List.map_map,
          drawn_offset_succ sa.election_results erd depth herd]
        simp only [List.map_cons, List.map_nil, List.sum_cons,
          List.sum_nil]
        have hp : (path.map ((fun er =>
            er.cards_total_drawn_discarded.1) ∘
            (fun tn => tn.relevant_election_result))).sum =
            drawn_offset sa.election_results depth := hsum
        omega
      refine ⟨?_, ?_, ?_, ?_⟩
      · rw [← hn]
        rfl
      · rw [← hv, List.length_set]
        omega
      · rw [← hv]
        exact List.getElem?_set_self (by omega)
      · rw [← hn]
        rw [node_children_check, Bool.and_eq_true]
        constructor
        · have key := sibling_conservation_filterMap sa.initial_deck_liberal
            sa.initial_deck_fascist sa.election_results
            ((path.map (fun tn => tn.relevant_election_result)) ++ [rer])
            F hcl (extract_confirmed_libs histogram) (depth + 1) erd1 S
            ((r0 :: rtail).map (fun r => r.1))
            hhyps herd1 hFS hrers_drawn hrers_dist hSiff
          exact key
        · refine children_check_of_forall _ ?_
          intro n hnmem
          obtain ⟨a, ha, haeq⟩ := List.mem_filterMap.mp hnmem
          split at haeq
          · have hna := Option.some.inj haeq
            rw [← hna, set_relative_probability_check]
            obtain ⟨r, hr, hra⟩ := List.mem_map.mp ha
            rw [← hra]
            exact (hfor r hr).2.2.2
          · exact Option.noConfusion haeq

/-- The sibling invariant for a non-empty sibling group, given the
invariant for its head node and its tail group. -/
theorem annotate_cons_case (sa : ShuffleAnalysis) (ps : PlayerState)
    (hcl : List PlayerID) (path : List TreeNode) (depth : Nat)
    (n : TreeNode) (rest : List TreeNode)
    (hIH1 : annotate_node_inv sa ps hcl path n depth)
    (hIH2 : annotate_list_inv sa ps hcl path rest depth) :
    annotate_list_inv sa ps hcl path (n :: rest) depth := by
  intro results hshape hsum hlist
  rw [annotate_trees_relative_list] at hlist
  rw [nodes_shape, Bool.and_eq_true, Bool.and_eq_true] at hshape
  obtain ⟨⟨hnshape, hdist⟩, hrestshape⟩ := hshape
  cases hr : annotate_trees_relative_recursive sa ps hcl path n depth with
  | error e =>
    rw [hr] at hlist
    exact Except.noConfusion hlist
  | ok r =>
    rw [hr] at hlist
    cases hrs : annotate_trees_relative_list sa ps hcl path rest depth with
    | error e =>
      rw [hrs] at hlist
      exact Except.noConfusion hlist
    | ok rs =>
      rw [hrs] at hlist
      obtain ⟨hforr, hndr⟩ := hIH2 rs hrestshape hsum hrs
      cases r with
      | none =>
        have hres : rs = results := Except.ok.inj hlist
        subst hres
        refine ⟨?_, hndr⟩
        intro r2 hr2
        obtain ⟨⟨m, hm, hmr⟩, h2, h3, h4⟩ := hforr r2 hr2
        exact ⟨⟨m, List.mem_cons_of_mem _ hm, hmr⟩, h2, h3, h4⟩
      | some x =>
        have hres : x :: rs = results := Except.ok.inj hlist
        subst hres
        obtain ⟨x1, x2⟩ := x
        obtain ⟨hrer, hlen, hget, hcheck⟩ := hIH1 x1 x2 hnshape hsum hr
        refine ⟨?_, ?_⟩
        · intro r2 hr2
          rcases List.mem_cons.mp hr2 with rfl | hr2t
          · dsimp only
            refine ⟨⟨n, List.mem_cons_self _ _, hrer⟩, hlen, ?_, hcheck⟩
            rw [hrer]
            exact hget
          · obtain ⟨⟨m, hm, hmr⟩, h2, h3, h4⟩ := hforr r2 hr2t
            exact ⟨⟨m, List.mem_cons_of_mem _ hm, hmr⟩, h2, h3, h4⟩
        · rw [List.map_cons, List.nodup_cons]
          refine ⟨?_, hndr⟩
          intro hmem
          obtain ⟨r2, hr2, hr2eq⟩ := List.mem_map.mp hmem
          obtain ⟨⟨m, hm, hmr⟩, _, _, _⟩ := hforr r2 hr2
          have hmn := (List.all_eq_true.mp hdist) m hm
          simp only [Bool.not_eq_eq_eq_not, Bool.not_true,
            beq_eq_false_iff_ne] at hmn
          apply hmn
          rw [← hrer, ← hr2eq, hmr]

/-- The annotation recursion maintains the sibling invariant: this is the
combined structural induction over
annotate_trees_relative_recursive/annotate_trees_relative_list. -/
theorem annotate_list_inv_holds (sa : ShuffleAnalysis) (ps : PlayerState)
    (hcl : List PlayerID) :
    ∀ (path nodes : List TreeNode) (depth : Nat),
    annotate_list_inv sa ps hcl path nodes depth := by
  refine annotate_trees_relative_list.induct sa ps hcl
    (annotate_node_inv sa ps hcl) (annotate_list_inv sa ps hcl)
    ?_ ?_ ?_ ?_ ?_
  · -- parent-path histogram fails: the recursion panics, nothing to show
    intro t path depth err hhist node2 vec _ _ hrec
    rw [annotate_rec_hist_error sa ps hcl path t depth err hhist] at hrec
    exact Except.noConfusion hrec
  · -- leaf node
    intro path depth histogram hhist rp ocb rer
    exact annotate_leaf_case sa ps hcl path depth histogram hhist rp ocb rer
  · -- internal node
    intro path depth histogram hhist rp ocb rer c cs hIH
    exact annotate_internal_case sa ps hcl path depth histogram hhist
      rp ocb rer c cs hIH
  · -- empty sibling group
    intro path depth results _ _ hlist
    rw [annotate_trees_relative_list] at hlist
    cases hlist
    exact ⟨fun r hr => absurd hr (List.not_mem_nil r), List.nodup_nil⟩
  · -- sibling group step
    intro path depth n rest hIH1 hIH2
    exact annotate_cons_case sa ps hcl path depth n rest hIH1 hIH2

/-- C1: after relative-probability annotation (annotate_trees_relative) of
a shuffle's generated and path-filtered tree, the returned forest passes
TreeNode::probability_check_recursive: at the root level and below every
node, the sum over the surviving sibling group of
relative_probability.num_matching equals the group's shared denominator —
the maximum (shared value) of the group's relative_probability.num_checked
counts. -/
theorem tree_relative_annotation_conserves_probability
    (sa : ShuffleAnalysis) (ps : PlayerState) (pred : List TreeNode → Bool)
    (roots : List TreeNode)
    (h : annotate_trees_relative (filter_paths (generate_tree sa) pred)
      sa ps = Except.ok roots) :
    probability_check_recursive roots = true := by
  have hshape0 : nodes_shape sa.election_results 0
      (filter_paths (generate_tree sa) pred) = true := by
    rw [filter_paths, generate_tree]
    exact filter_paths_list_shape sa.election_results pred []
      (recursively_generate_tree sa.election_results) 0
      (recursively_generate_tree_shape sa.election_results
        sa.election_results 0 rfl)
  rw [atr_unfold] at h
  revert h
  generalize (match filtered_histogramm (true, true) ps [] with
    | Except.ok histogram => extract_confirmed_libs histogram
    | Except.error _ => []) = hcl0
  intro h
  cases hres : annotate_trees_relative_list sa ps hcl0 []
      (filter_paths (generate_tree sa) pred) 0 with
  | error e =>
    rw [hres] at h
    exact Except.noConfusion h
  | ok results =>
    rw [hres] at h
    simp only [Except.bind] at h
    obtain ⟨hfor, hnd⟩ := annotate_list_inv_holds sa ps hcl0 []
      (filter_paths (generate_tree sa) pred) 0 results hshape0 rfl hres
    cases hfold : fold_children_legal_draws
        (results.map (fun r => r.2)) with
    | none =>
      rw [hfold] at h
      exact Except.noConfusion h
    | some F =>
      rw [hfold] at h
      dsimp only at h
      have hroots := Except.ok.inj h
      clear h
      obtain ⟨v0, vs, hvecs, hF⟩ :=
        fold_children_legal_draws_some _ F hfold
      cases results with
      | nil =>
        rw [List.map_nil] at hvecs
        exact List.noConfusion hvecs
      | cons r0 rtail =>
      subst hroots
      rw [List.map_cons] at hvecs
      have hv0 : r0.2 = v0 := (List.cons_eq_cons.mp hvecs).1
      have hvs : rtail.map (fun r => r.2) = vs :=
        (List.cons_eq_cons.mp hvecs).2
      have hr0 := hfor r0 (List.mem_cons_self _ _)
      have hget0 : v0[0]? = Option.some (Option.some
          [r0.1.relevant_election_result.seen_blues]) := by
        rw [← hv0]
        exact hr0.2.2.1
      have hallvs : ∀ w ∈ vs, ∃ s, w[0]? =
          Option.some (Option.some s) := by
        intro w hw
        rw [← hvs] at hw
        obtain ⟨r, hr, hweq⟩ := List.mem_map.mp hw
        refine ⟨[r.1.relevant_election_result.seen_blues], ?_⟩
        rw [← hweq]
        exact (hfor r (List.mem_cons_of_mem _ hr)).2.2.1
      obtain ⟨S, hFS0, hSmem⟩ := foldl_zip_merge_getElem 0 vs v0
        [r0.1.relevant_election_result.seen_blues] hget0 hallvs
      have hFS : F[0]? = Option.some (Option.some S) := by
        rw [hF]
        exact hFS0
      obtain ⟨n0, hn0, hn0rer⟩ := hr0.1
      have hn0shape := nodes_shape_mem sa.election_results 0
        (filter_paths (generate_tree sa) pred) hshape0 n0 hn0
      obtain ⟨erd0, herd0, _⟩ := node_shape_er sa.election_results 0
        n0 hn0shape
      have hrers_drawn : ∀ t ∈ (r0 :: rtail).map (fun r => r.1),
          t.relevant_election_result.cards_total_drawn_discarded.1 =
          erd0.cards_total_drawn_discarded.1 := by
        intro t ht
        obtain ⟨r, hr, hreq⟩ := List.mem_map.mp ht
        obtain ⟨n', hn', hrer⟩ := (hfor r hr).1
        have hshape' := nodes_shape_mem sa.election_results 0
          (filter_paths (generate_tree sa) pred) hshape0 n' hn'
        obtain ⟨er', her', hdr'⟩ := node_shape_er sa.election_results 0
          n' hshape'
        have her'2 : er' = erd0 := by
          rw [herd0] at her'
          exact (Option.some.inj her').symm
        rw [← hreq, hrer, hdr', her'2]
      have hrers_dist : (((r0 :: rtail).map (fun r => r.1)).map (fun t =>
          t.relevant_election_result.seen_blues)).Nodup := by
        rw [List.map_map]
        exact hnd
      have hSiff : ∀ v, v ∈ S ↔
          v ∈ ((r0 :: rtail).map (fun r => r.1)).map (fun t =>
            t.relevant_election_result.seen_blues) := by
        intro v
        rw [hSmem v]
        constructor
        · rintro (hv1 | ⟨w, hw, s, hs, hvs2⟩)
          · have hveq : v = r0.1.relevant_election_result.seen_blues := by
              simpa using hv1
            subst hveq
            exact List.mem_map.mpr ⟨r0.1,
              List.mem_map.mpr ⟨r0, List.mem_cons_self _ _, rfl⟩, rfl⟩
          · rw [← hvs] at hw
            obtain ⟨r, hr, hweq⟩ := List.mem_map.mp hw
            have hrg := (hfor r (List.mem_cons_of_mem _ hr)).2.2.1
            rw [hweq, hs] at hrg
            have hseq : s = [r.1.relevant_election_result.seen_blues] :=
              Option.some.inj (Option.some.inj hrg)
            rw [hseq] at hvs2
            have hveq : v = r.1.relevant_election_result.seen_blues := by
              simpa using hvs2
            subst hveq
            exact List.mem_map.mpr ⟨r.1,
              List.mem_map.mpr ⟨r, List.mem_cons_of_mem _ hr, rfl⟩, rfl⟩
        · intro hv1
          obtain ⟨t, ht, hteq⟩ := List.mem_map.mp hv1
          obtain ⟨r, hr, hreq⟩ := List.mem_map.mp ht
          rcases List.mem_cons.mp hr with rfl | hrt
          · refine Or.inl ?_
            rw [← hteq, ← hreq]
            simp
          · refine Or.inr ⟨r.2, ?_,
              [r.1.relevant_election_result.seen_blues],
              (hfor r (List.mem_cons_of_mem _ hrt)).2.2.1, ?_⟩
            · rw [← hvs]
              exact List.mem_map.mpr ⟨r, hrt, rfl⟩
            · rw [← hteq, ← hreq]
              simp
      rw [probability_check_recursive, Bool.and_eq_true]
      constructor
      · have key := sibling_conservation_map sa.initial_deck_liberal
          sa.initial_deck_fascist sa.election_results [] F hcl0 [] 0 erd0 S
          ((r0 :: rtail).map (fun r => r.1))
          rfl herd0 hFS hrers_drawn hrers_dist hSiff (by simp)
        exact key
      · refine children_check_of_forall _ ?_
        intro x hx
        obtain ⟨a, ha, hax⟩ := List.mem_map.mp hx
        rw [← hax, set_relative_probability_check]
        obtain ⟨r, hr, hra⟩ := List.mem_map.mp ha
        rw [← hra]
        exact (hfor r hr).2.2.2

/-- Witness for C1: the annotation pipeline on the tiny two-seat fixture
returns a forest that passes the probability check. -/
theorem tree_relative_annotation_conserves_probability_witness :
    probability_check_recursive
      [TreeNode.mk { num_matching := 1, num_checked := 1 } 1
        (ElectionResult.TopDeck Policy.Liberal
          { cards_left := 2, cards_discarded := 0, shuffle_index := 0 })
        []] = true :=
  tree_relative_annotation_conserves_probability sa2 ps2
    (fun nodes => logically_consistent_path_filter nodes ps2)
    [TreeNode.mk { num_matching := 1, num_checked := 1 } 1
      (ElectionResult.TopDeck Policy.Liberal
        { cards_left := 2, cards_discarded := 0, shuffle_index := 0 })
      []] (by rfl)

end ShSupport
